import Mathlib

/-!
Verification of the limn layout-solver wrapper (src/layout/src/solver.rs).

The wrapper (`LimnSolver`) keeps several indices around an external
cassowary-style linear-constraint engine.  We embed the engine as the
observable state the wrapper interacts with: the set of installed
constraints, the installed edit variables with their strengths, the
suggestions issued, and the pending changed-variable feed.  The engine's
`add_constraint` rejects a duplicate constraint; `remove_constraint` and
`suggest_value` are only ever invoked by the wrapper behind guards
(`has_constraint` / `has_edit_variable`) that make them succeed, and are
embedded as total functions at those call sites.

Rust `HashMap`s are embedded as association lists with lookup/insert/erase
observing the hash-map semantics (unique keys, insert replaces), `HashSet`s
as duplicate-free lists, and the `LinkedHashMap` debug ledger as an
insertion-ordered duplicate-free list.  `f64` values are only moved around
by the wrapper (the single literal that occurs is the `0.0` default), so
they are embedded as integers; constraint strengths are likewise integers,
with the cassowary strength constants.  Fallible operations return
`Except`, carrying the state at the abort point in the error case (the
source panics there with the state as it stands).
-/

/-! ## Association-list maps (embedding of Rust HashMap) -/

def lookupA {α β : Type} [DecidableEq α] : List (α × β) → α → Option β
  | [], _ => none
  | (k, v) :: rest, a => if k = a then some v else lookupA rest a

def eraseA {α β : Type} [DecidableEq α] (m : List (α × β)) (k : α) : List (α × β) :=
  m.filter (fun p => decide (p.1 ≠ k))

def insertA {α β : Type} [DecidableEq α] (m : List (α × β)) (k : α) (v : β) : List (α × β) :=
  (k, v) :: eraseA m k

def containsA {α β : Type} [DecidableEq α] (m : List (α × β)) (k : α) : Bool :=
  (lookupA m k).isSome

/-- Duplicate-free list standing for a Rust `HashSet`: insert is a no-op on
a present element. -/
def setInsert {α : Type} [DecidableEq α] (s : List α) (a : α) : List α :=
  if a ∈ s then s else a :: s

/-- `HashSet::remove` / removal of an element from a set-like list. -/
def setRemove {α : Type} [DecidableEq α] (s : List α) (a : α) : List α :=
  s.filter (fun b => decide (b ≠ a))

/-! ## Data model -/

/-
Cassowary variables (opaque handles) and widget identifiers (`Nat`)
are embedded as `Nat`.  `f64` values and strengths are embedded as `Int`:
the wrapper only moves values around (the sole literal occurring is the
`0.0` default in `add_widget`), and the strength constants are integral.
-/

/-- cassowary `strength::WEAK`. -/
def WEAK : Int := 1
/-- cassowary `strength::MEDIUM`. -/
def MEDIUM : Int := 1000
/-- cassowary `strength::STRONG`. -/
def STRONG : Int := 1000000
/-- cassowary `strength::REQUIRED`. -/
def REQUIRED : Int := 1001001000

/-- cassowary relational operator of a constraint. -/
inductive RelOp where
  | le : RelOp
  | eq : RelOp
  | ge : RelOp
deriving DecidableEq

/-- One term of a linear expression (`cassowary::Term`). -/
structure Term where
  var : Nat
  coefficient : Int
deriving DecidableEq

/-- A linear expression (`cassowary::Expression`). -/
structure Expression where
  terms : List Term
  constant : Int
deriving DecidableEq

/-- A cassowary constraint.  In the source a `Constraint` is an `Arc` around
the expression/op/strength data, compared and hashed by pointer identity;
`cid` embeds that creation identity. -/
structure Constraint where
  cid : Nat
  expression : Expression
  op : RelOp
  strength : Int
deriving DecidableEq

/-- The variables referenced by a constraint, in term order
(`constraint.0.expression.terms`, each term's `variable`). -/
def constraintVariables (c : Constraint) : List Nat :=
  c.expression.terms.map Term.var

/-- Modelled from the spec: `LayoutVars` is defined in the layout crate's
root module, which is not part of the provided sources.  Per the spec, a
widget owns four variables (left, top, width, height) while right and
bottom are derived; `array()` yields the four owned variables. -/
structure LayoutVars where
  left : Nat
  top : Nat
  right : Nat
  bottom : Nat
  width : Nat
  height : Nat
deriving DecidableEq

/-- Modelled from the spec: the widget's four variables, as iterated by
`remove_widget` and `hide_widget`. -/
def LayoutVars.array (v : LayoutVars) : List Nat :=
  [v.left, v.top, v.width, v.height]

/-- One edit-variable directive of a layout declaration: a variable, an
optional initial value, and a strength. -/
structure EditVariable where
  var : Nat
  val : Option Int
  strength : Int
deriving DecidableEq

/-- Modelled from the spec: the declaration bundle (`LayoutBuilder`) holds
the widget's variables, edit-variable directives and constraints, as
consumed by `add_widget` / `update_from_builder`. -/
structure LayoutBuilder where
  vars : LayoutVars
  edit_vars : List EditVariable
  constraints : List Constraint
deriving DecidableEq

/-- Modelled from the spec: the caller's mutable geometry record
(`Rect` with `origin.x`, `origin.y`, `size.width`, `size.height`). -/
structure Rect where
  x : Int
  y : Int
  width : Int
  height : Int
deriving DecidableEq

/-! ## The external constraint engine (cassowary::Solver) -/

/-- Observable state of the external engine. -/
structure Engine where
  installed : List Constraint
  edit_vars : List (Nat × Int)
  suggestions : List (Nat × Int)
  changes : List (Nat × Int)
deriving DecidableEq

def Engine.hasConstraint (e : Engine) (c : Constraint) : Bool :=
  decide (c ∈ e.installed)

/-- `add_constraint`: the engine rejects a duplicate constraint. -/
def Engine.addConstraintE (e : Engine) (c : Constraint) : Except String Engine :=
  if c ∈ e.installed then Except.error "duplicate constraint"
  else Except.ok { e with installed := c :: e.installed }

/-- Engine `add_constraint` at a call site where the wrapper has already
checked `!has_constraint`, so the add succeeds. -/
def Engine.addConstraintOk (e : Engine) (c : Constraint) : Engine :=
  { e with installed := c :: e.installed }

/-- Engine `remove_constraint` at a call site where the wrapper has already
checked `has_constraint`, so the removal succeeds. -/
def Engine.removeConstraintOk (e : Engine) (c : Constraint) : Engine :=
  { e with installed := setRemove e.installed c }

def Engine.hasEditVariable (e : Engine) (v : Nat) : Bool :=
  containsA e.edit_vars v

/-- `add_edit_variable`: rejects a variable that is already an edit
variable. -/
def Engine.addEditVariableE (e : Engine) (v : Nat) (st : Int) : Except String Engine :=
  if (containsA e.edit_vars v : Bool) then Except.error "duplicate edit variable"
  else Except.ok { e with edit_vars := insertA e.edit_vars v st }

/-- `add_edit_variable` at a call site guarded by `!has_edit_variable`. -/
def Engine.addEditVariableOk (e : Engine) (v : Nat) (st : Int) : Engine :=
  { e with edit_vars := insertA e.edit_vars v st }

/-- `suggest_value`: rejects an unknown edit variable. -/
def Engine.suggestValueE (e : Engine) (v : Nat) (val : Int) : Except String Engine :=
  if (containsA e.edit_vars v : Bool) then
    Except.ok { e with suggestions := e.suggestions ++ [(v, val)] }
  else Except.error "unknown edit variable"

/-- `suggest_value` at a call site where the edit variable is known to be
installed. -/
def Engine.suggestValueOk (e : Engine) (v : Nat) (val : Int) : Engine :=
  { e with suggestions := e.suggestions ++ [(v, val)] }

/-- `fetch_changes`: returns the accumulated deltas and clears them. -/
def Engine.fetchChangesE (e : Engine) : List (Nat × Int) × Engine :=
  (e.changes, { e with changes := [] })

/-! ## The wrapper (LimnSolver) -/

structure LimnSolver where
  solver : Engine
  var_constraints : List (Nat × List Constraint)
  constraint_vars : List (Constraint × List Nat)
  var_ids : List (Nat × Nat)
  hidden_layouts : List (Nat × List Constraint)
  edit_strengths : List (Nat × Int)
  missing_widget_layout : List (Nat × Int)
  debug_constraint_list : List Constraint
deriving DecidableEq

/-- `LimnSolver::new`. -/
def LimnSolver.new : LimnSolver :=
  { solver := { installed := [], edit_vars := [], suggestions := [], changes := [] }
    var_constraints := []
    constraint_vars := []
    var_ids := []
    hidden_layouts := []
    edit_strengths := []
    missing_widget_layout := []
    debug_constraint_list := [] }

/-- `LinkedHashMap::insert` on the debug ledger: a present key keeps its
position, an absent key is appended. -/
def ledgerInsert (l : List Constraint) (c : Constraint) : List Constraint :=
  if c ∈ l then l else l ++ [c]

/-- `LinkedHashMap::remove` on the debug ledger. -/
def ledgerRemove (l : List Constraint) (c : Constraint) : List Constraint :=
  l.filter (fun d => decide (d ≠ c))

/-- `LimnSolver::add_constraint`: inserts into the debug ledger, then asks
the engine to add the constraint; an engine rejection panics
(`.expect(...)`), embedded as `Except.error` carrying the state at the
abort point. -/
def LimnSolver.add_constraint (s : LimnSolver) (c : Constraint) :
    Except LimnSolver LimnSolver :=
  let s1 := { s with debug_constraint_list := ledgerInsert s.debug_constraint_list c }
  match s1.solver.addConstraintE c with
  | Except.error _ => Except.error s1
  | Except.ok e => Except.ok { s1 with solver := e }

/-- Indexing step of `update_from_builder` for one constraint: append the
constraint's term variables to `constraint_vars[c]` (creating the entry),
and insert the constraint into `var_constraints[v]` for each term variable
(creating entries). -/
def LimnSolver.indexConstraint (s : LimnSolver) (c : Constraint) : LimnSolver :=
  { s with
    constraint_vars :=
      insertA s.constraint_vars c
        (((lookupA s.constraint_vars c).getD []) ++ constraintVariables c)
    var_constraints :=
      (constraintVariables c).foldl
        (fun m v => insertA m v (setInsert ((lookupA m v).getD []) c))
        s.var_constraints }

/-- One edit-variable directive of `update_from_builder`: with a value,
install the edit variable if absent and suggest the value; without a value,
cache the strength. -/
def LimnSolver.processEditVar (s : LimnSolver) (ev : EditVariable) :
    Except LimnSolver LimnSolver :=
  match ev.val with
  | some v =>
    let step1 : Except LimnSolver LimnSolver :=
      if s.solver.hasEditVariable ev.var then Except.ok s
      else
        match s.solver.addEditVariableE ev.var ev.strength with
        | Except.error _ => Except.error s
        | Except.ok e => Except.ok { s with solver := e }
    match step1 with
    | Except.error s1 => Except.error s1
    | Except.ok s1 =>
      match s1.solver.suggestValueE ev.var v with
      | Except.error _ => Except.error s1
      | Except.ok e => Except.ok { s1 with solver := e }
  | none =>
    Except.ok { s with edit_strengths := insertA s.edit_strengths ev.var ev.strength }

def LimnSolver.processEditVars : LimnSolver → List EditVariable → Except LimnSolver LimnSolver
  | s, [] => Except.ok s
  | s, ev :: rest =>
    match s.processEditVar ev with
    | Except.error s1 => Except.error s1
    | Except.ok s1 => s1.processEditVars rest

def LimnSolver.processConstraints : LimnSolver → List Constraint → Except LimnSolver LimnSolver
  | s, [] => Except.ok s
  | s, c :: rest =>
    match s.add_constraint c with
    | Except.error s1 => Except.error s1
    | Except.ok s1 => (s1.indexConstraint c).processConstraints rest

/-- `LimnSolver::update_from_builder`. -/
def LimnSolver.update_from_builder (s : LimnSolver) (layout : LayoutBuilder) :
    Except LimnSolver LimnSolver :=
  match s.processEditVars layout.edit_vars with
  | Except.error s1 => Except.error s1
  | Except.ok s1 => s1.processConstraints layout.constraints

/-- The `check_existing` closure of `add_widget`:
`missing_widget_layout.remove(var).unwrap_or(0.0)`. -/
def LimnSolver.checkExisting (s : LimnSolver) (v : Nat) : Int × LimnSolver :=
  ((lookupA s.missing_widget_layout v).getD 0,
   { s with missing_widget_layout := eraseA s.missing_widget_layout v })

/-- `LimnSolver::add_widget`.  The debug-naming step only writes the
process-wide variable name table (diagnostics; embedded separately as the
`names` argument of the formatters) and is omitted here.  The caller's
`bounds` record is mutated before declaration ingestion, so both the ok and
the abort state carry the resulting record. -/
def LimnSolver.add_widget (s : LimnSolver) (id : Nat) (layout : LayoutBuilder)
    (_bounds : Rect) : Except (LimnSolver × Rect) (LimnSolver × Rect) :=
  let vi := insertA (insertA (insertA (insertA s.var_ids layout.vars.left id)
      layout.vars.top id) layout.vars.width id) layout.vars.height id
  let s0 := { s with var_ids := vi }
  let px := s0.checkExisting layout.vars.left
  let py := px.2.checkExisting layout.vars.top
  let pw := py.2.checkExisting layout.vars.width
  let ph := pw.2.checkExisting layout.vars.height
  let bounds1 : Rect := { x := px.1, y := py.1, width := pw.1, height := ph.1 }
  let mw := eraseA (eraseA ph.2.missing_widget_layout layout.vars.right) layout.vars.bottom
  let s1 := { ph.2 with missing_widget_layout := mw }
  match s1.update_from_builder layout with
  | Except.error s2 => Except.error (s2, bounds1)
  | Except.ok s2 => Except.ok (s2, bounds1)

/-- `var_constraints.get_mut(&var)` followed by `constraint_set.remove`:
only an existing entry is updated (an emptied set entry remains in the
map). -/
def setRemoveAt (m : List (Nat × List Constraint)) (v : Nat) (c : Constraint) :
    List (Nat × List Constraint) :=
  match lookupA m v with
  | some cset => insertA m v (setRemove cset c)
  | none => m

/-- Body of `remove_widget`'s inner loop for one constraint: if still
installed, drop it from the debug ledger, remove it from the engine, and
remove it from the constraint sets of every variable it references. -/
def LimnSolver.removeConstraintStep (s : LimnSolver) (c : Constraint) : LimnSolver :=
  if s.solver.hasConstraint c then
    let s1 := { s with debug_constraint_list := ledgerRemove s.debug_constraint_list c }
    let s2 := { s1 with solver := s1.solver.removeConstraintOk c }
    match lookupA s2.constraint_vars c with
    | some var_list =>
      { s2 with var_constraints :=
          var_list.foldl (fun m v => setRemoveAt m v c) s2.var_constraints }
    | none => s2
  else s

/-- Body of `remove_widget`'s outer loop for one of the widget's variables:
take the variable's constraint set out of the map, process every constraint
in it, then drop the variable from `var_ids`. -/
def LimnSolver.removeVar (s : LimnSolver) (v : Nat) : LimnSolver :=
  let s1 :=
    match lookupA s.var_constraints v with
    | some cset =>
      cset.foldl LimnSolver.removeConstraintStep
        { s with var_constraints := eraseA s.var_constraints v }
    | none => s
  { s1 with var_ids := eraseA s1.var_ids v }

/-- `LimnSolver::remove_widget`. -/
def LimnSolver.remove_widget (s : LimnSolver) (widget_vars : LayoutVars) : LimnSolver :=
  widget_vars.array.foldl LimnSolver.removeVar s

/-- One collected constraint in `hide_widget`: uninstall it from the engine
if installed (best effort), and push it onto the collected list either
way. -/
def LimnSolver.hideStep (p : List Constraint × LimnSolver) (c : Constraint) :
    List Constraint × LimnSolver :=
  let s := p.2
  let s1 := if s.solver.hasConstraint c then
      { s with solver := s.solver.removeConstraintOk c }
    else s
  (p.1 ++ [c], s1)

/-- `hide_widget`'s loop body for one of the widget's variables. -/
def LimnSolver.hideVar (p : List Constraint × LimnSolver) (v : Nat) :
    List Constraint × LimnSolver :=
  match lookupA p.2.var_constraints v with
  | some cset => cset.foldl LimnSolver.hideStep p
  | none => p

/-- `LimnSolver::hide_widget`: a no-op when the widget is already hidden;
otherwise collect and best-effort-uninstall the constraints of the four
variables and record them in the hidden-layout store. -/
def LimnSolver.hide_widget (s : LimnSolver) (id : Nat) (vars : LayoutVars) : LimnSolver :=
  if containsA s.hidden_layouts id then s
  else
    let p := vars.array.foldl LimnSolver.hideVar ([], s)
    { p.2 with hidden_layouts := insertA p.2.hidden_layouts id p.1 }

/-- One stored constraint in `unhide_widget`: reinstall it unless already
installed (best effort). -/
def LimnSolver.unhideStep (s : LimnSolver) (c : Constraint) : LimnSolver :=
  if s.solver.hasConstraint c then s
  else { s with solver := s.solver.addConstraintOk c }

/-- `LimnSolver::unhide_widget`: remove the stored entry and reinstall each
stored constraint not already installed. -/
def LimnSolver.unhide_widget (s : LimnSolver) (id : Nat) : LimnSolver :=
  match lookupA s.hidden_layouts id with
  | some constraints =>
    constraints.foldl LimnSolver.unhideStep
      { s with hidden_layouts := eraseA s.hidden_layouts id }
  | none => s

/-- `LimnSolver::edit_variable`: install the edit variable first if absent,
consuming the cached strength (default `strength::STRONG`), then suggest
the value.  Both engine calls are behind guards that make them succeed. -/
def LimnSolver.edit_variable (s : LimnSolver) (v : Nat) (val : Int) : LimnSolver :=
  if s.solver.hasEditVariable v then
    { s with solver := s.solver.suggestValueOk v val }
  else
    let strength := (lookupA s.edit_strengths v).getD STRONG
    let s1 := { s with edit_strengths := eraseA s.edit_strengths v }
    let s2 := { s1 with solver := s1.solver.addEditVariableOk v strength }
    { s2 with solver := s2.solver.suggestValueOk v val }

/-- `LimnSolver::has_edit_variable`. -/
def LimnSolver.has_edit_variable (s : LimnSolver) (v : Nat) : Bool :=
  s.solver.hasEditVariable v

/-- `LimnSolver::has_constraint`. -/
def LimnSolver.has_constraint (s : LimnSolver) (c : Constraint) : Bool :=
  s.solver.hasConstraint c

/-- One drained engine delta in `fetch_changes`: emit it when the variable
belongs to a known widget, defer it otherwise. -/
def LimnSolver.fetchStep (p : List (Nat × Nat × Int) × LimnSolver)
    (q : Nat × Int) : List (Nat × Nat × Int) × LimnSolver :=
  match lookupA p.2.var_ids q.1 with
  | some id => (p.1 ++ [(id, q.1, q.2)], p.2)
  | none =>
    (p.1, { p.2 with missing_widget_layout := insertA p.2.missing_widget_layout q.1 q.2 })

/-- `LimnSolver::fetch_changes`. -/
def LimnSolver.fetch_changes (s : LimnSolver) :
    List (Nat × Nat × Int) × LimnSolver :=
  let fe := s.solver.fetchChangesE
  fe.1.foldl LimnSolver.fetchStep ([], { s with solver := fe.2 })

/-! ## Diagnostics formatting -/

/-- `fmt_variable`, with the process-wide name table passed explicitly. -/
def fmt_variable (names : List (Nat × String)) (v : Nat) : String :=
  match lookupA names v with
  | some n => n
  | none => "var(" ++ toString v ++ ")"

/-- The strength-bucket label of `fmt_constraint`. -/
def strengthDesc (stren : Int) : String :=
  if stren < WEAK then "WEAK-"
  else if stren = WEAK then "WEAK "
  else if stren < MEDIUM then "WEAK+"
  else if stren = MEDIUM then "MED  "
  else if stren < STRONG then "MED+ "
  else if stren = STRONG then "STR  "
  else if stren < REQUIRED then "STR+ "
  else if stren = REQUIRED then "REQD "
  else "REQD+"

/-- Display of a relational operator. -/
def opString : RelOp → String
  | RelOp.le => "<="
  | RelOp.eq => "=="
  | RelOp.ge => ">="

/-- `fmt_expression`: constant first when nonzero, then each term with
coefficient elision for plus and minus one. -/
def fmt_expression (names : List (Nat × String)) (expression : Expression) : String :=
  let start : String × Bool :=
    if expression.constant ≠ 0 then (toString expression.constant, false) else ("", true)
  let r := expression.terms.foldl
    (fun (p : String × Bool) t =>
      let coef : String :=
        if t.coefficient = 1 then (if p.2 then "" else "+ ")
        else if t.coefficient = -1 then "- "
        else if t.coefficient > 0 then
          (if p.2 then toString t.coefficient ++ " * "
           else "+ " ++ toString t.coefficient ++ " * ")
        else "- " ++ toString t.coefficient ++ " * "
      (p.1 ++ " " ++ coef ++ fmt_variable names t.var, false))
    start
  r.1

/-- `fmt_constraint`. -/
def fmt_constraint (names : List (Nat × String)) (c : Constraint) : String :=
  strengthDesc c.strength ++ " " ++ fmt_expression names c.expression ++ " "
    ++ opString c.op ++ " 0"

/-! ## Basic lemmas about the map and set embeddings -/

theorem lookupA_eraseA_self {α β : Type} [DecidableEq α] (m : List (α × β)) (k : α) :
    lookupA (eraseA m k) k = none := by
  induction m with
  | nil => rfl
  | cons p rest ih =>
    by_cases h : p.1 = k
    · simpa [eraseA, List.filter_cons, h] using ih
    · simpa [eraseA, List.filter_cons, h, lookupA] using ih

theorem lookupA_eraseA_ne {α β : Type} [DecidableEq α] (m : List (α × β)) (k a : α)
    (h : a ≠ k) : lookupA (eraseA m k) a = lookupA m a := by
  induction m with
  | nil => rfl
  | cons p rest ih =>
    obtain ⟨pk, pv⟩ := p
    by_cases hp : pk = k
    · have h1 : eraseA ((pk, pv) :: rest) k = eraseA rest k := by
        simp [eraseA, List.filter_cons, hp]
      have hpa : ¬ pk = a := fun hc => h (hc.symm.trans hp)
      rw [h1, ih]
      simp [lookupA, hpa]
    · have h1 : eraseA ((pk, pv) :: rest) k = (pk, pv) :: eraseA rest k := by
        simp [eraseA, List.filter_cons, hp]
      rw [h1]
      by_cases hpa : pk = a
      · simp [lookupA, hpa]
      · simp only [lookupA, hpa, if_false]
        exact ih

theorem lookupA_insertA_self {α β : Type} [DecidableEq α] (m : List (α × β)) (k : α) (v : β) :
    lookupA (insertA m k v) k = some v := by
  simp [insertA, lookupA]

theorem lookupA_insertA_ne {α β : Type} [DecidableEq α] (m : List (α × β)) (k a : α) (v : β)
    (h : a ≠ k) : lookupA (insertA m k v) a = lookupA m a := by
  have hk : ¬ k = a := fun hc => h hc.symm
  simp only [insertA, lookupA, hk, if_false]
  exact lookupA_eraseA_ne m k a h

theorem mem_setInsert {α : Type} [DecidableEq α] (s : List α) (a b : α) :
    b ∈ setInsert s a ↔ b = a ∨ b ∈ s := by
  by_cases h : a ∈ s
  · simp only [setInsert, if_pos h]
    constructor
    · exact fun hb => Or.inr hb
    · rintro (rfl | hb)
      · exact h
      · exact hb
  · simp [setInsert, if_neg h]

theorem mem_setRemove {α : Type} [DecidableEq α] (s : List α) (a b : α) :
    b ∈ setRemove s a ↔ b ∈ s ∧ b ≠ a := by
  simp [setRemove, List.mem_filter]

theorem mem_ledgerInsert (l : List Constraint) (c d : Constraint) :
    d ∈ ledgerInsert l c ↔ d ∈ l ∨ d = c := by
  by_cases h : c ∈ l
  · simp only [ledgerInsert, if_pos h]
    constructor
    · exact fun hd => Or.inl hd
    · rintro (hd | rfl)
      · exact hd
      · exact h
  · simp [ledgerInsert, if_neg h]

theorem mem_ledgerRemove (l : List Constraint) (c d : Constraint) :
    d ∈ ledgerRemove l c ↔ d ∈ l ∧ d ≠ c := by
  simp [ledgerRemove, List.mem_filter]

/-! ## Invariants connecting the indices -/

/-- The constraint set indexed under a variable (`var_constraints[v]`,
empty when the entry is absent). -/
def varConstraintsAt (s : LimnSolver) (v : Nat) : List Constraint :=
  (lookupA s.var_constraints v).getD []

/-- The variable list indexed under a constraint (`constraint_vars[c]`,
empty when the entry is absent). -/
def constraintVarsAt (s : LimnSolver) (c : Constraint) : List Nat :=
  (lookupA s.constraint_vars c).getD []

/-- Every installed constraint is indexed under each variable it
references; this is what ingesting every constraint through
`update_from_builder` establishes. -/
def InstalledIndexed (s : LimnSolver) : Prop :=
  ∀ c ∈ s.solver.installed, ∀ v ∈ constraintVariables c, c ∈ varConstraintsAt s v

/-- Mutual consistency of the two constraint indices: a constraint is in
`var_constraints[v]` iff `v` appears in `constraint_vars[c]`'s list. -/
def Consistent (s : LimnSolver) : Prop :=
  ∀ c v, c ∈ varConstraintsAt s v ↔ v ∈ constraintVarsAt s c

/-! ## Claim C8: constraint formatting -/

/-- The strength-bucket labels reachable in `fmt_constraint`. -/
def strengthLabels : List String :=
  ["WEAK-", "WEAK ", "WEAK+", "MED  ", "MED+ ", "STR  ", "STR+ ", "REQD ", "REQD+"]

/-- C8 (amended): `fmt_constraint` renders
"{strength-bucket} {linear expression} {op} 0", where the bucket prefix is
drawn from nine (not seven) fixed labels determined by comparing the
strength against the thresholds weak, medium, strong and required, with a
below/at/above gradation at each threshold. -/
theorem C8_fmt_constraint_nine_buckets (names : List (Nat × String)) (c : Constraint) :
    fmt_constraint names c =
      strengthDesc c.strength ++ " " ++ fmt_expression names c.expression ++ " "
        ++ opString c.op ++ " 0" ∧
    strengthDesc c.strength ∈ strengthLabels ∧
    (c.strength < WEAK → strengthDesc c.strength = "WEAK-") ∧
    (c.strength = WEAK → strengthDesc c.strength = "WEAK ") ∧
    (WEAK < c.strength → c.strength < MEDIUM → strengthDesc c.strength = "WEAK+") ∧
    (c.strength = MEDIUM → strengthDesc c.strength = "MED  ") ∧
    (MEDIUM < c.strength → c.strength < STRONG → strengthDesc c.strength = "MED+ ") ∧
    (c.strength = STRONG → strengthDesc c.strength = "STR  ") ∧
    (STRONG < c.strength → c.strength < REQUIRED → strengthDesc c.strength = "STR+ ") ∧
    (c.strength = REQUIRED → strengthDesc c.strength = "REQD ") ∧
    (REQUIRED < c.strength → strengthDesc c.strength = "REQD+") := by
  refine ⟨rfl, ?_, ?_, ?_, ?_, ?_, ?_, ?_, ?_, ?_, ?_⟩
  · simp only [strengthDesc]
    split_ifs <;> simp [strengthLabels]
  all_goals
    intros
    simp only [strengthDesc, WEAK, MEDIUM, STRONG, REQUIRED] at *
    split_ifs <;> first | rfl | omega

/-- C8 witness: a concrete constraint at the medium threshold. -/
theorem C8_witness :
    fmt_constraint [] (Constraint.mk 0 (Expression.mk [] 0) RelOp.eq 1000) =
      strengthDesc 1000 ++ " "
        ++ fmt_expression [] (Expression.mk [] 0) ++ " " ++ opString RelOp.eq ++ " 0" ∧
    strengthDesc (1000 : Int) = "MED  " :=
  ⟨(C8_fmt_constraint_nine_buckets [] (Constraint.mk 0 (Expression.mk [] 0) RelOp.eq 1000)).1,
   (C8_fmt_constraint_nine_buckets []
      (Constraint.mk 0 (Expression.mk [] 0) RelOp.eq 1000)).2.2.2.2.2.1 (by decide)⟩

/-- C8 counterexample: nine concrete strengths whose rendered bucket
prefixes (the first five characters of `fmt_constraint`'s output) are
pairwise distinct, so the prefix is not drawn from a set of exactly seven
labels. -/
theorem C8_counterexample :
    ((([0, 1, 500, 1000, 5000, 1000000, 2000000, 1001001000, 2000000000] : List Int).map
      (fun k => (fmt_constraint [] (Constraint.mk 0 (Expression.mk [] 0) RelOp.eq k)).take 5)).Nodup)
    ∧
    ((([0, 1, 500, 1000, 5000, 1000000, 2000000, 1001001000, 2000000000] : List Int).map
      (fun k => (fmt_constraint [] (Constraint.mk 0 (Expression.mk [] 0) RelOp.eq k)).take 5)).length
      = 9) := by
  constructor
  · decide
  · rfl

/-! ## Unpacking fallible results

The source panics when the engine rejects a mutation; the `Except` error
carries the state at the abort point, and `orSelf` projects the state out
of either outcome. -/

def orSelf : Except LimnSolver LimnSolver → LimnSolver
  | Except.ok s => s
  | Except.error s => s

def unpackW : Except (LimnSolver × Rect) (LimnSolver × Rect) → LimnSolver × Rect
  | Except.ok p => p
  | Except.error p => p

theorem unpackW_mapState (e : Except LimnSolver LimnSolver) (b : Rect) :
    unpackW (match e with
      | Except.error s2 => Except.error (s2, b)
      | Except.ok s2 => Except.ok (s2, b)) = (orSelf e, b) := by
  cases e <;> rfl

theorem lookupA_eraseA_none {α β : Type} [DecidableEq α] (m : List (α × β)) (k a : α)
    (h : lookupA m a = none) : lookupA (eraseA m k) a = none := by
  by_cases hak : a = k
  · subst hak
    exact lookupA_eraseA_self m a
  · rw [lookupA_eraseA_ne m k a hak]
    exact h

/-! ## Which fields each phase of `update_from_builder` leaves alone -/

/-- Fields untouched by the edit-variable loop of `update_from_builder`
(which only writes `edit_strengths` and the engine's edit-variable and
suggestion state). -/
def SameButEdit (s t : LimnSolver) : Prop :=
  t.var_constraints = s.var_constraints ∧ t.constraint_vars = s.constraint_vars ∧
  t.var_ids = s.var_ids ∧ t.hidden_layouts = s.hidden_layouts ∧
  t.missing_widget_layout = s.missing_widget_layout ∧
  t.debug_constraint_list = s.debug_constraint_list ∧
  t.solver.installed = s.solver.installed ∧ t.solver.changes = s.solver.changes

theorem sameButEdit_refl (s : LimnSolver) : SameButEdit s s :=
  ⟨rfl, rfl, rfl, rfl, rfl, rfl, rfl, rfl⟩

theorem sameButEdit_trans {s t u : LimnSolver} (h1 : SameButEdit s t)
    (h2 : SameButEdit t u) : SameButEdit s u :=
  ⟨h2.1.trans h1.1, h2.2.1.trans h1.2.1, h2.2.2.1.trans h1.2.2.1,
   h2.2.2.2.1.trans h1.2.2.2.1, h2.2.2.2.2.1.trans h1.2.2.2.2.1,
   h2.2.2.2.2.2.1.trans h1.2.2.2.2.2.1, h2.2.2.2.2.2.2.1.trans h1.2.2.2.2.2.2.1,
   h2.2.2.2.2.2.2.2.trans h1.2.2.2.2.2.2.2⟩

theorem containsA_insertA_self {α β : Type} [DecidableEq α] (m : List (α × β)) (k : α)
    (v : β) : containsA (insertA m k v) k = true := by
  simp [containsA, lookupA_insertA_self]

theorem processEditVar_sameButEdit (s : LimnSolver) (ev : EditVariable) :
    SameButEdit s (orSelf (s.processEditVar ev)) := by
  unfold LimnSolver.processEditVar Engine.addEditVariableE Engine.suggestValueE
  rcases ev.val with _ | v
  · exact sameButEdit_refl _
  · unfold Engine.hasEditVariable
    cases hc : containsA s.solver.edit_vars ev.var
    · simp [hc, containsA_insertA_self, orSelf, SameButEdit]
    · simp [hc, orSelf, SameButEdit]

theorem processEditVars_sameButEdit (l : List EditVariable) :
    ∀ s : LimnSolver, SameButEdit s (orSelf (s.processEditVars l)) := by
  induction l with
  | nil =>
    intro s
    exact sameButEdit_refl s
  | cons ev rest ih =>
    intro s
    have hstep := processEditVar_sameButEdit s ev
    unfold LimnSolver.processEditVars
    cases hres : s.processEditVar ev with
    | error s1 =>
      rw [hres] at hstep
      simpa [orSelf] using hstep
    | ok s1 =>
      rw [hres] at hstep
      simp only [orSelf] at hstep
      exact sameButEdit_trans hstep (ih s1)

/-- Fields untouched by the constraint loop of `update_from_builder`
(which writes the ledger, the engine's installed set, and the two
constraint indices). -/
def SameButCons (s t : LimnSolver) : Prop :=
  t.var_ids = s.var_ids ∧ t.hidden_layouts = s.hidden_layouts ∧
  t.missing_widget_layout = s.missing_widget_layout ∧
  t.edit_strengths = s.edit_strengths ∧
  t.solver.edit_vars = s.solver.edit_vars ∧ t.solver.changes = s.solver.changes

theorem sameButCons_refl (s : LimnSolver) : SameButCons s s :=
  ⟨rfl, rfl, rfl, rfl, rfl, rfl⟩

theorem sameButCons_trans {s t u : LimnSolver} (h1 : SameButCons s t)
    (h2 : SameButCons t u) : SameButCons s u :=
  ⟨h2.1.trans h1.1, h2.2.1.trans h1.2.1, h2.2.2.1.trans h1.2.2.1,
   h2.2.2.2.1.trans h1.2.2.2.1, h2.2.2.2.2.1.trans h1.2.2.2.2.1,
   h2.2.2.2.2.2.trans h1.2.2.2.2.2⟩

theorem add_constraint_sameButCons (s : LimnSolver) (c : Constraint) :
    SameButCons s (orSelf (s.add_constraint c)) := by
  unfold LimnSolver.add_constraint Engine.addConstraintE
  by_cases hm : c ∈ s.solver.installed
  · simp [hm, orSelf, SameButCons]
  · simp [hm, orSelf, SameButCons]

theorem indexConstraint_sameButCons (s : LimnSolver) (c : Constraint) :
    SameButCons s (s.indexConstraint c) := by
  unfold LimnSolver.indexConstraint
  exact ⟨rfl, rfl, rfl, rfl, rfl, rfl⟩

theorem processConstraints_sameButCons (l : List Constraint) :
    ∀ s : LimnSolver, SameButCons s (orSelf (s.processConstraints l)) := by
  induction l with
  | nil =>
    intro s
    exact sameButCons_refl s
  | cons c rest ih =>
    intro s
    have hstep := add_constraint_sameButCons s c
    unfold LimnSolver.processConstraints
    cases hres : s.add_constraint c with
    | error s1 =>
      rw [hres] at hstep
      simpa [orSelf] using hstep
    | ok s1 =>
      rw [hres] at hstep
      simp only [orSelf] at hstep
      exact sameButCons_trans hstep
        (sameButCons_trans (indexConstraint_sameButCons s1 c) (ih (s1.indexConstraint c)))

/-- Fields untouched by `update_from_builder` as a whole, on the success
and on the abort path alike. -/
theorem update_from_builder_preserved (s : LimnSolver) (layout : LayoutBuilder) :
    (orSelf (s.update_from_builder layout)).var_ids = s.var_ids ∧
    (orSelf (s.update_from_builder layout)).hidden_layouts = s.hidden_layouts ∧
    (orSelf (s.update_from_builder layout)).missing_widget_layout = s.missing_widget_layout ∧
    (orSelf (s.update_from_builder layout)).solver.changes = s.solver.changes := by
  have hedit := processEditVars_sameButEdit layout.edit_vars s
  unfold LimnSolver.update_from_builder
  cases hres : s.processEditVars layout.edit_vars with
  | error s1 =>
    rw [hres] at hedit
    simp only [orSelf] at hedit
    exact ⟨hedit.2.2.1, hedit.2.2.2.1, hedit.2.2.2.2.1, hedit.2.2.2.2.2.2.2⟩
  | ok s1 =>
    rw [hres] at hedit
    simp only [orSelf] at hedit
    have hcons := processConstraints_sameButCons layout.constraints s1
    exact ⟨hcons.1.trans hedit.2.2.1, hcons.2.1.trans hedit.2.2.2.1,
      hcons.2.2.1.trans hedit.2.2.2.2.1, hcons.2.2.2.2.2.trans hedit.2.2.2.2.2.2.2⟩

/-! ## Claim C2: deferred-value seeding in `add_widget` -/

/-- C2 (amended): for each of the four variables, `add_widget` writes the
cached deferred value into the geometry record's field and removes the
cache entry; when no value is cached the field is set to the `0.0`
default, overwriting the caller-supplied value (not left unchanged).  The
deferred entries for the derived right and bottom variables are removed
without being written to any field. -/
theorem C2_add_widget_deferred_seeding (s : LimnSolver) (id : Nat) (layout : LayoutBuilder)
    (bounds : Rect)
    (h1 : layout.vars.top ≠ layout.vars.left)
    (h2 : layout.vars.width ≠ layout.vars.left) (h3 : layout.vars.width ≠ layout.vars.top)
    (h4 : layout.vars.height ≠ layout.vars.left) (h5 : layout.vars.height ≠ layout.vars.top)
    (h6 : layout.vars.height ≠ layout.vars.width) :
    (unpackW (s.add_widget id layout bounds)).2 =
      Rect.mk ((lookupA s.missing_widget_layout layout.vars.left).getD 0)
        ((lookupA s.missing_widget_layout layout.vars.top).getD 0)
        ((lookupA s.missing_widget_layout layout.vars.width).getD 0)
        ((lookupA s.missing_widget_layout layout.vars.height).getD 0) ∧
    lookupA (unpackW (s.add_widget id layout bounds)).1.missing_widget_layout
      layout.vars.left = none ∧
    lookupA (unpackW (s.add_widget id layout bounds)).1.missing_widget_layout
      layout.vars.top = none ∧
    lookupA (unpackW (s.add_widget id layout bounds)).1.missing_widget_layout
      layout.vars.width = none ∧
    lookupA (unpackW (s.add_widget id layout bounds)).1.missing_widget_layout
      layout.vars.height = none ∧
    lookupA (unpackW (s.add_widget id layout bounds)).1.missing_widget_layout
      layout.vars.right = none ∧
    lookupA (unpackW (s.add_widget id layout bounds)).1.missing_widget_layout
      layout.vars.bottom = none := by
  simp only [LimnSolver.add_widget, LimnSolver.checkExisting]
  rw [unpackW_mapState]
  refine ⟨?_, ?_, ?_, ?_, ?_, ?_, ?_⟩
  · dsimp only
    simp only [lookupA_eraseA_ne _ _ _ h1, lookupA_eraseA_ne _ _ _ h2,
      lookupA_eraseA_ne _ _ _ h3, lookupA_eraseA_ne _ _ _ h4,
      lookupA_eraseA_ne _ _ _ h5, lookupA_eraseA_ne _ _ _ h6]
  all_goals
    dsimp only
    rw [(update_from_builder_preserved _ layout).2.2.1]
    dsimp only
  · exact lookupA_eraseA_none _ _ _ (lookupA_eraseA_none _ _ _ (lookupA_eraseA_none _ _ _
      (lookupA_eraseA_none _ _ _ (lookupA_eraseA_none _ _ _ (lookupA_eraseA_self _ _)))))
  · exact lookupA_eraseA_none _ _ _ (lookupA_eraseA_none _ _ _ (lookupA_eraseA_none _ _ _
      (lookupA_eraseA_none _ _ _ (lookupA_eraseA_self _ _))))
  · exact lookupA_eraseA_none _ _ _ (lookupA_eraseA_none _ _ _ (lookupA_eraseA_none _ _ _
      (lookupA_eraseA_self _ _)))
  · exact lookupA_eraseA_none _ _ _ (lookupA_eraseA_none _ _ _ (lookupA_eraseA_self _ _))
  · exact lookupA_eraseA_none _ _ _ (lookupA_eraseA_self _ _)
  · exact lookupA_eraseA_self _ _

/-- C2 witness: a deferred value of 42 cached for the left variable seeds
the geometry record; the other fields fall back to 0 and the six cache
entries are gone. -/
theorem C2_witness :
    (unpackW (({ LimnSolver.new with missing_widget_layout := [(0, 42)] }).add_widget 7
        (LayoutBuilder.mk (LayoutVars.mk 0 1 4 5 2 3) [] []) (Rect.mk 5 6 7 8))).2 =
      Rect.mk ((lookupA [((0 : Nat), (42 : Int))] 0).getD 0)
        ((lookupA [((0 : Nat), (42 : Int))] 1).getD 0)
        ((lookupA [((0 : Nat), (42 : Int))] 2).getD 0)
        ((lookupA [((0 : Nat), (42 : Int))] 3).getD 0) ∧
    lookupA (unpackW (({ LimnSolver.new with missing_widget_layout := [(0, 42)] }).add_widget 7
        (LayoutBuilder.mk (LayoutVars.mk 0 1 4 5 2 3) [] []) (Rect.mk 5 6 7 8))).1.missing_widget_layout
      0 = none ∧
    lookupA (unpackW (({ LimnSolver.new with missing_widget_layout := [(0, 42)] }).add_widget 7
        (LayoutBuilder.mk (LayoutVars.mk 0 1 4 5 2 3) [] []) (Rect.mk 5 6 7 8))).1.missing_widget_layout
      1 = none ∧
    lookupA (unpackW (({ LimnSolver.new with missing_widget_layout := [(0, 42)] }).add_widget 7
        (LayoutBuilder.mk (LayoutVars.mk 0 1 4 5 2 3) [] []) (Rect.mk 5 6 7 8))).1.missing_widget_layout
      2 = none ∧
    lookupA (unpackW (({ LimnSolver.new with missing_widget_layout := [(0, 42)] }).add_widget 7
        (LayoutBuilder.mk (LayoutVars.mk 0 1 4 5 2 3) [] []) (Rect.mk 5 6 7 8))).1.missing_widget_layout
      3 = none ∧
    lookupA (unpackW (({ LimnSolver.new with missing_widget_layout := [(0, 42)] }).add_widget 7
        (LayoutBuilder.mk (LayoutVars.mk 0 1 4 5 2 3) [] []) (Rect.mk 5 6 7 8))).1.missing_widget_layout
      4 = none ∧
    lookupA (unpackW (({ LimnSolver.new with missing_widget_layout := [(0, 42)] }).add_widget 7
        (LayoutBuilder.mk (LayoutVars.mk 0 1 4 5 2 3) [] []) (Rect.mk 5 6 7 8))).1.missing_widget_layout
      5 = none :=
  C2_add_widget_deferred_seeding { LimnSolver.new with missing_widget_layout := [(0, 42)] } 7
    (LayoutBuilder.mk (LayoutVars.mk 0 1 4 5 2 3) [] []) (Rect.mk 5 6 7 8)
    (by decide) (by decide) (by decide) (by decide) (by decide) (by decide)

/-- C2 counterexample: with an empty deferred cache, the caller-supplied
geometry record (5, 6, 7, 8) is not left unchanged: every field is
overwritten with the 0.0 default. -/
theorem C2_counterexample :
    (unpackW (LimnSolver.new.add_widget 7
        (LayoutBuilder.mk (LayoutVars.mk 0 1 4 5 2 3) [] []) (Rect.mk 5 6 7 8))).2 =
      Rect.mk 0 0 0 0 ∧
    (unpackW (LimnSolver.new.add_widget 7
        (LayoutBuilder.mk (LayoutVars.mk 0 1 4 5 2 3) [] []) (Rect.mk 5 6 7 8))).2 ≠
      Rect.mk 5 6 7 8 := by
  constructor
  · rfl
  · decide

/-! ## Claim C6: the edit-variable protocol -/

/-- C6: `edit_variable(var, value)` suggests the value; when the variable is
not yet an installed edit variable it first installs it with the cached
strength if present, the default strong strength otherwise; when it is
already installed the engine's edit-variable set is left unchanged (no
re-install). -/
theorem C6_edit_variable_protocol (s : LimnSolver) (v : Nat) (val : Int) :
    (s.edit_variable v val).solver.suggestions = s.solver.suggestions ++ [(v, val)] ∧
    (s.edit_variable v val).solver.edit_vars =
      (if s.solver.hasEditVariable v then s.solver.edit_vars
       else insertA s.solver.edit_vars v ((lookupA s.edit_strengths v).getD STRONG)) := by
  cases hh : s.solver.hasEditVariable v <;>
    simp [LimnSolver.edit_variable, hh, Engine.suggestValueOk, Engine.addEditVariableOk]

/-! ## Claim C10: the edit-strength cache is consumed on installation -/

/-- C10: installing an edit variable through `edit_variable` removes the
cached strength entry; an installation that finds no cache entry uses the
default strong strength; and a strength-only directive in
`update_from_builder` overwrites any previously cached strength for the
same variable. -/
theorem C10_edit_strength_cache (s t u : LimnSolver) (v w x : Nat) (a b str : Int) :
    (s.solver.hasEditVariable v = false →
      lookupA (s.edit_variable v a).edit_strengths v = none) ∧
    (t.solver.hasEditVariable w = false → lookupA t.edit_strengths w = none →
      (t.edit_variable w b).solver.edit_vars = insertA t.solver.edit_vars w STRONG) ∧
    (∀ lv : LayoutVars, ∃ s1 : LimnSolver,
      u.update_from_builder (LayoutBuilder.mk lv [EditVariable.mk x none str] []) =
        Except.ok s1 ∧ lookupA s1.edit_strengths x = some str) := by
  refine ⟨?_, ?_, ?_⟩
  · intro hh
    simp [LimnSolver.edit_variable, hh, lookupA_eraseA_self]
  · intro hh hl
    simp [LimnSolver.edit_variable, hh, hl, Engine.addEditVariableOk, Engine.suggestValueOk]
  · intro lv
    exact ⟨_, rfl, lookupA_insertA_self _ _ _⟩

/-- C10 witness: a cached strength of 5 for variable 0 is consumed by
`edit_variable`; an installation with an empty cache uses the strong
default; a strength-only directive caches strength 7. -/
theorem C10_witness :
    lookupA (({ LimnSolver.new with
        edit_strengths := [(0, 5)] }).edit_variable 0 10).edit_strengths 0 = none ∧
    (LimnSolver.new.edit_variable 1 2).solver.edit_vars =
      insertA LimnSolver.new.solver.edit_vars 1 STRONG ∧
    ∃ s1 : LimnSolver,
      LimnSolver.new.update_from_builder
          (LayoutBuilder.mk (LayoutVars.mk 0 1 4 5 2 3) [EditVariable.mk 2 none 7] []) =
        Except.ok s1 ∧ lookupA s1.edit_strengths 2 = some 7 :=
  ⟨(C10_edit_strength_cache { LimnSolver.new with edit_strengths := [(0, 5)] }
      LimnSolver.new LimnSolver.new 0 1 2 10 2 7).1 (by decide),
   (C10_edit_strength_cache { LimnSolver.new with edit_strengths := [(0, 5)] }
      LimnSolver.new LimnSolver.new 0 1 2 10 2 7).2.1 (by decide) (by decide),
   (C10_edit_strength_cache { LimnSolver.new with edit_strengths := [(0, 5)] }
      LimnSolver.new LimnSolver.new 0 1 2 10 2 7).2.2 (LayoutVars.mk 0 1 4 5 2 3)⟩

/-! ## Claim C5: what a rejected constraint add leaves behind -/

def isOkE : Except LimnSolver LimnSolver → Bool
  | Except.ok _ => true
  | Except.error _ => false

/-- C5 (amended): when the engine rejects a constraint add, the operation
aborts with the two constraint indices and every other map exactly as
before the call, but the debug constraint ledger has already been updated
with the attempted constraint (the ledger insert precedes the engine
call). -/
theorem C5_add_constraint_abort (s s1 : LimnSolver) (c : Constraint)
    (h : s.add_constraint c = Except.error s1) :
    s1.var_constraints = s.var_constraints ∧ s1.constraint_vars = s.constraint_vars ∧
    s1.var_ids = s.var_ids ∧ s1.hidden_layouts = s.hidden_layouts ∧
    s1.edit_strengths = s.edit_strengths ∧
    s1.missing_widget_layout = s.missing_widget_layout ∧
    s1.solver = s.solver ∧
    s1.debug_constraint_list = ledgerInsert s.debug_constraint_list c := by
  unfold LimnSolver.add_constraint Engine.addConstraintE at h
  by_cases hm : c ∈ s.solver.installed
  · simp only [hm, if_true, Except.error.injEq] at h
    subst h
    exact ⟨rfl, rfl, rfl, rfl, rfl, rfl, rfl, rfl⟩
  · simp [hm] at h

/-- Scenario reaching a state where a constraint is installed in the
engine but absent from the debug ledger: ingest a constraint spanning
widgets A and B, hide B (uninstalls it, ledger untouched), re-ingest it
(reinstalls it, ledger unchanged since the constraint is still there),
remove A (uninstalls it and cleans the ledger), then unhide B (reinstalls
it without touching the ledger). -/
def c5c : Constraint :=
  Constraint.mk 0 (Expression.mk [Term.mk 0 1, Term.mk 10 1] 0) RelOp.eq 1000000

def c5varsA : LayoutVars := LayoutVars.mk 0 1 4 5 2 3

def c5varsB : LayoutVars := LayoutVars.mk 10 11 14 15 12 13

def c5b : LayoutBuilder := LayoutBuilder.mk c5varsA [] [c5c]

def c5s2 : LimnSolver := (orSelf (LimnSolver.new.update_from_builder c5b)).hide_widget 1 c5varsB

def c5s5 : LimnSolver :=
  ((orSelf (c5s2.update_from_builder c5b)).remove_widget c5varsA).unhide_widget 1

/-- C5 counterexample: in the reachable state `c5s5` the ledger is empty
while the constraint is installed; the next ingestion of the same
constraint is rejected by the engine, yet on that failure path the debug
constraint ledger now contains the constraint — an index changed on the
failure path. -/
theorem C5_counterexample :
    isOkE (LimnSolver.new.update_from_builder c5b) = true ∧
    isOkE (c5s2.update_from_builder c5b) = true ∧
    c5s5.debug_constraint_list = [] ∧
    c5s5.solver.installed = [c5c] ∧
    isOkE (c5s5.update_from_builder c5b) = false ∧
    (orSelf (c5s5.update_from_builder c5b)).debug_constraint_list = [c5c] := by
  exact ⟨rfl, rfl, rfl, rfl, rfl, rfl⟩

/-- C5 witness: the abort-state characterization applied at the concrete
rejected add in state `c5s5`. -/
theorem C5_witness :
    (orSelf (c5s5.add_constraint c5c)).var_constraints = c5s5.var_constraints ∧
    (orSelf (c5s5.add_constraint c5c)).constraint_vars = c5s5.constraint_vars ∧
    (orSelf (c5s5.add_constraint c5c)).var_ids = c5s5.var_ids ∧
    (orSelf (c5s5.add_constraint c5c)).hidden_layouts = c5s5.hidden_layouts ∧
    (orSelf (c5s5.add_constraint c5c)).edit_strengths = c5s5.edit_strengths ∧
    (orSelf (c5s5.add_constraint c5c)).missing_widget_layout = c5s5.missing_widget_layout ∧
    (orSelf (c5s5.add_constraint c5c)).solver = c5s5.solver ∧
    (orSelf (c5s5.add_constraint c5c)).debug_constraint_list =
      ledgerInsert c5s5.debug_constraint_list c5c :=
  C5_add_constraint_abort c5s5 (orSelf (c5s5.add_constraint c5c)) c5c rfl

/-! ## Structural lemmas for `remove_widget` -/

theorem eraseA_of_lookupA_none {α β : Type} [DecidableEq α] (m : List (α × β)) (k : α)
    (h : lookupA m k = none) : eraseA m k = m := by
  induction m with
  | nil => rfl
  | cons p rest ih =>
    obtain ⟨pk, pv⟩ := p
    by_cases hp : pk = k
    · simp [lookupA, hp] at h
    · simp only [lookupA, hp, if_false] at h
      have h1 : eraseA ((pk, pv) :: rest) k = (pk, pv) :: eraseA rest k := by
        simp [eraseA, List.filter_cons, hp]
      rw [h1, ih h]

theorem eraseA_insertA {α β : Type} [DecidableEq α] (m : List (α × β)) (k : α) (v : β) :
    eraseA (insertA m k v) k = eraseA m k := by
  simp only [insertA, eraseA, List.filter_cons]
  simp [List.filter_filter]

/-- `remove_widget`'s inner step only rewrites the variable-to-constraints
index, the debug ledger and the engine's installed set. -/
theorem removeConstraintStep_shape (s : LimnSolver) (c : Constraint) :
    ∃ vc inst dl, s.removeConstraintStep c =
      { s with var_constraints := vc, debug_constraint_list := dl,
               solver := { s.solver with installed := inst } } := by
  unfold LimnSolver.removeConstraintStep
  cases hm : s.solver.hasConstraint c
  · simp only [Bool.false_eq_true, if_false]
    exact ⟨s.var_constraints, s.solver.installed, s.debug_constraint_list, rfl⟩
  · simp only [if_true]
    split
    · exact ⟨_, _, _, rfl⟩
    · exact ⟨_, _, _, rfl⟩

theorem foldl_removeConstraintStep_shape (cs : List Constraint) :
    ∀ s : LimnSolver, ∃ vc inst dl, cs.foldl LimnSolver.removeConstraintStep s =
      { s with var_constraints := vc, debug_constraint_list := dl,
               solver := { s.solver with installed := inst } } := by
  induction cs with
  | nil =>
    intro s
    exact ⟨s.var_constraints, s.solver.installed, s.debug_constraint_list, rfl⟩
  | cons c rest ih =>
    intro s
    obtain ⟨vc1, i1, d1, h1⟩ := removeConstraintStep_shape s c
    obtain ⟨vc2, i2, d2, h2⟩ := ih (s.removeConstraintStep c)
    refine ⟨vc2, i2, d2, ?_⟩
    rw [List.foldl_cons, h2, h1]

theorem removeVar_shape (s : LimnSolver) (v : Nat) :
    ∃ vc inst dl vi, s.removeVar v =
      { s with var_constraints := vc, debug_constraint_list := dl, var_ids := vi,
               solver := { s.solver with installed := inst } } := by
  unfold LimnSolver.removeVar
  cases hl : lookupA s.var_constraints v
  · exact ⟨s.var_constraints, s.solver.installed, s.debug_constraint_list,
      eraseA s.var_ids v, rfl⟩
  · case some cset =>
    dsimp only
    obtain ⟨vc, i, d, hf⟩ :=
      foldl_removeConstraintStep_shape cset { s with var_constraints := eraseA s.var_constraints v }
    rw [hf]
    exact ⟨vc, i, d, _, rfl⟩

theorem foldl_removeVar_shape (l : List Nat) :
    ∀ s : LimnSolver, ∃ vc inst dl vi, l.foldl LimnSolver.removeVar s =
      { s with var_constraints := vc, debug_constraint_list := dl, var_ids := vi,
               solver := { s.solver with installed := inst } } := by
  induction l with
  | nil =>
    intro s
    exact ⟨s.var_constraints, s.solver.installed, s.debug_constraint_list, s.var_ids, rfl⟩
  | cons v rest ih =>
    intro s
    obtain ⟨vc1, i1, d1, vi1, h1⟩ := removeVar_shape s v
    obtain ⟨vc2, i2, d2, vi2, h2⟩ := ih (s.removeVar v)
    refine ⟨vc2, i2, d2, vi2, ?_⟩
    rw [List.foldl_cons, h2, h1]

/-- `remove_widget` never touches the constraint-to-variables index, the
hidden-layout store, the edit-strength cache, the deferred-value cache, or
the engine's edit variables. -/
theorem remove_widget_untouched (s : LimnSolver) (vars : LayoutVars) :
    (s.remove_widget vars).constraint_vars = s.constraint_vars ∧
    (s.remove_widget vars).hidden_layouts = s.hidden_layouts ∧
    (s.remove_widget vars).edit_strengths = s.edit_strengths ∧
    (s.remove_widget vars).missing_widget_layout = s.missing_widget_layout ∧
    (s.remove_widget vars).solver.edit_vars = s.solver.edit_vars ∧
    (s.remove_widget vars).solver.changes = s.solver.changes := by
  obtain ⟨vc, i, d, vi, h⟩ := foldl_removeVar_shape vars.array s
  unfold LimnSolver.remove_widget
  rw [h]
  exact ⟨rfl, rfl, rfl, rfl, rfl, rfl⟩

/-! ## Structural lemmas for hide/unhide -/

/-- The constraints `hide_widget` collects: each variable's indexed
constraint set, concatenated in variable order (duplicates kept). -/
def collectedConstraints (s : LimnSolver) : List Nat → List Constraint
  | [] => []
  | v :: rest => varConstraintsAt s v ++ collectedConstraints s rest

theorem collectedConstraints_congr (s t : LimnSolver)
    (h : t.var_constraints = s.var_constraints) :
    ∀ l, collectedConstraints t l = collectedConstraints s l := by
  intro l
  induction l with
  | nil => rfl
  | cons v rest ih => simp [collectedConstraints, varConstraintsAt, h, ih]

theorem hideStep_shape (p : List Constraint × LimnSolver) (c : Constraint) :
    ∃ inst, (LimnSolver.hideStep p c).2 =
        { p.2 with solver := { p.2.solver with installed := inst } } ∧
      (LimnSolver.hideStep p c).1 = p.1 ++ [c] := by
  unfold LimnSolver.hideStep
  dsimp only
  by_cases hm : p.2.solver.hasConstraint c = true
  · rw [if_pos hm]
    exact ⟨_, rfl, rfl⟩
  · rw [if_neg hm]
    exact ⟨p.2.solver.installed, rfl, rfl⟩

theorem hideStep_installed_mem (p : List Constraint × LimnSolver) (c d : Constraint) :
    d ∈ (LimnSolver.hideStep p c).2.solver.installed ↔
      d ∈ p.2.solver.installed ∧ d ≠ c := by
  unfold LimnSolver.hideStep
  dsimp only
  by_cases hm : p.2.solver.hasConstraint c = true
  · rw [if_pos hm]
    simp [Engine.removeConstraintOk, mem_setRemove]
  · rw [if_neg hm]
    unfold Engine.hasConstraint at hm
    simp only [decide_eq_true_eq] at hm
    constructor
    · intro hd
      exact ⟨hd, fun hdc => hm (hdc ▸ hd)⟩
    · exact fun hd => hd.1

theorem foldl_hideStep_shape (cs : List Constraint) :
    ∀ p : List Constraint × LimnSolver,
      ∃ inst, ((cs.foldl LimnSolver.hideStep p).2 =
          { p.2 with solver := { p.2.solver with installed := inst } }) ∧
        (cs.foldl LimnSolver.hideStep p).1 = p.1 ++ cs := by
  induction cs with
  | nil =>
    intro p
    exact ⟨p.2.solver.installed, rfl, by simp⟩
  | cons c rest ih =>
    intro p
    rw [List.foldl_cons]
    obtain ⟨i1, hs1, ha1⟩ := hideStep_shape p c
    obtain ⟨i2, hs2, ha2⟩ := ih (LimnSolver.hideStep p c)
    refine ⟨i2, ?_, ?_⟩
    · rw [hs2, hs1]
    · rw [ha2, ha1]
      simp

theorem foldl_hideStep_mem (cs : List Constraint) :
    ∀ (p : List Constraint × LimnSolver) (d : Constraint),
      d ∈ (cs.foldl LimnSolver.hideStep p).2.solver.installed ↔
        d ∈ p.2.solver.installed ∧ d ∉ cs := by
  induction cs with
  | nil => simp
  | cons c rest ih =>
    intro p d
    rw [List.foldl_cons, ih, hideStep_installed_mem]
    constructor
    · rintro ⟨⟨hd, hne⟩, hnr⟩
      exact ⟨hd, by simp [hne, hnr]⟩
    · rintro ⟨hd, hncs⟩
      simp only [List.mem_cons, not_or] at hncs
      exact ⟨⟨hd, hncs.1⟩, hncs.2⟩

theorem hideVar_shape (p : List Constraint × LimnSolver) (v : Nat) :
    ∃ inst, ((LimnSolver.hideVar p v).2 =
        { p.2 with solver := { p.2.solver with installed := inst } }) ∧
      (LimnSolver.hideVar p v).1 = p.1 ++ varConstraintsAt p.2 v := by
  unfold LimnSolver.hideVar
  cases hl : lookupA p.2.var_constraints v
  · dsimp only
    exact ⟨p.2.solver.installed, rfl, by simp [varConstraintsAt, hl]⟩
  · case some cset =>
    dsimp only
    obtain ⟨i, h1, h2⟩ := foldl_hideStep_shape cset p
    refine ⟨i, h1, ?_⟩
    rw [h2]
    simp [varConstraintsAt, hl]

theorem hideVar_mem (p : List Constraint × LimnSolver) (v : Nat) (d : Constraint) :
    d ∈ (LimnSolver.hideVar p v).2.solver.installed ↔
      d ∈ p.2.solver.installed ∧ d ∉ varConstraintsAt p.2 v := by
  unfold LimnSolver.hideVar
  cases hl : lookupA p.2.var_constraints v
  · dsimp only
    simp [varConstraintsAt, hl]
  · case some cset =>
    dsimp only
    rw [foldl_hideStep_mem]
    simp [varConstraintsAt, hl]

theorem foldl_hideVar_spec (l : List Nat) :
    ∀ p : List Constraint × LimnSolver,
      ∃ inst, ((l.foldl LimnSolver.hideVar p).2 =
          { p.2 with solver := { p.2.solver with installed := inst } }) ∧
        (l.foldl LimnSolver.hideVar p).1 = p.1 ++ collectedConstraints p.2 l ∧
        (∀ d, d ∈ (l.foldl LimnSolver.hideVar p).2.solver.installed ↔
          d ∈ p.2.solver.installed ∧ d ∉ collectedConstraints p.2 l) := by
  induction l with
  | nil =>
    intro p
    exact ⟨p.2.solver.installed, rfl, by simp [collectedConstraints],
      by simp [collectedConstraints]⟩
  | cons v rest ih =>
    intro p
    rw [List.foldl_cons]
    obtain ⟨i1, hs1, ha1⟩ := hideVar_shape p v
    obtain ⟨i2, hs2, ha2, hm2⟩ := ih (LimnSolver.hideVar p v)
    have hvc : (LimnSolver.hideVar p v).2.var_constraints = p.2.var_constraints := by
      rw [hs1]
    refine ⟨i2, ?_, ?_, ?_⟩
    · rw [hs2, hs1]
    · rw [ha2, ha1, collectedConstraints_congr p.2 _ hvc rest]
      simp [collectedConstraints]
    · intro d
      rw [hm2 d, hideVar_mem, collectedConstraints_congr p.2 _ hvc rest]
      simp only [collectedConstraints, List.mem_append, not_or]
      tauto

theorem hide_widget_noop (s : LimnSolver) (id : Nat) (vars : LayoutVars)
    (h : containsA s.hidden_layouts id = true) : s.hide_widget id vars = s := by
  unfold LimnSolver.hide_widget
  rw [if_pos h]

/-- What `hide_widget` does to a not-yet-hidden widget: the indices are
untouched, the collected constraint list is stored, and exactly the
collected constraints are uninstalled. -/
theorem hide_widget_spec (s : LimnSolver) (id : Nat) (vars : LayoutVars)
    (hnot : containsA s.hidden_layouts id = false) :
    (s.hide_widget id vars).var_constraints = s.var_constraints ∧
    (s.hide_widget id vars).constraint_vars = s.constraint_vars ∧
    (s.hide_widget id vars).var_ids = s.var_ids ∧
    (s.hide_widget id vars).edit_strengths = s.edit_strengths ∧
    (s.hide_widget id vars).missing_widget_layout = s.missing_widget_layout ∧
    (s.hide_widget id vars).debug_constraint_list = s.debug_constraint_list ∧
    (s.hide_widget id vars).hidden_layouts =
      insertA s.hidden_layouts id (collectedConstraints s vars.array) ∧
    (∀ d, d ∈ (s.hide_widget id vars).solver.installed ↔
      d ∈ s.solver.installed ∧ d ∉ collectedConstraints s vars.array) := by
  unfold LimnSolver.hide_widget
  rw [if_neg (by simp [hnot])]
  dsimp only
  obtain ⟨i, hs, ha, hm⟩ := foldl_hideVar_spec vars.array ([], s)
  rw [hs, ha]
  refine ⟨rfl, rfl, rfl, rfl, rfl, rfl, by simp, ?_⟩
  intro d
  have := hm d
  rw [hs] at this
  simpa using this

theorem unhideStep_shape (s : LimnSolver) (c : Constraint) :
    ∃ inst, LimnSolver.unhideStep s c =
      { s with solver := { s.solver with installed := inst } } := by
  unfold LimnSolver.unhideStep
  by_cases hm : s.solver.hasConstraint c = true
  · rw [if_pos hm]
    exact ⟨s.solver.installed, rfl⟩
  · rw [if_neg hm]
    exact ⟨_, rfl⟩

theorem unhideStep_mem (s : LimnSolver) (c d : Constraint) :
    d ∈ (LimnSolver.unhideStep s c).solver.installed ↔
      d ∈ s.solver.installed ∨ d = c := by
  unfold LimnSolver.unhideStep
  by_cases hm : s.solver.hasConstraint c = true
  · rw [if_pos hm]
    unfold Engine.hasConstraint at hm
    simp only [decide_eq_true_eq] at hm
    constructor
    · exact fun hd => Or.inl hd
    · rintro (hd | rfl)
      · exact hd
      · exact hm
  · rw [if_neg hm]
    simp [Engine.addConstraintOk, or_comm]

theorem foldl_unhideStep_shape (cs : List Constraint) :
    ∀ s : LimnSolver, ∃ inst, cs.foldl LimnSolver.unhideStep s =
      { s with solver := { s.solver with installed := inst } } := by
  induction cs with
  | nil =>
    intro s
    exact ⟨s.solver.installed, rfl⟩
  | cons c rest ih =>
    intro s
    rw [List.foldl_cons]
    obtain ⟨i1, h1⟩ := unhideStep_shape s c
    obtain ⟨i2, h2⟩ := ih (LimnSolver.unhideStep s c)
    refine ⟨i2, ?_⟩
    rw [h2, h1]

theorem foldl_unhideStep_mem (cs : List Constraint) :
    ∀ (s : LimnSolver) (d : Constraint),
      d ∈ (cs.foldl LimnSolver.unhideStep s).solver.installed ↔
        d ∈ s.solver.installed ∨ d ∈ cs := by
  induction cs with
  | nil => simp
  | cons c rest ih =>
    intro s d
    rw [List.foldl_cons, ih, unhideStep_mem]
    simp only [List.mem_cons]
    tauto

theorem unhide_widget_none (s : LimnSolver) (id : Nat)
    (h : lookupA s.hidden_layouts id = none) : s.unhide_widget id = s := by
  unfold LimnSolver.unhide_widget
  rw [h]

/-- What `unhide_widget` does when the widget is hidden with stored list
`L`: the entry is removed, the indices are untouched, and exactly the
stored constraints are (re)installed on top of the current set. -/
theorem unhide_widget_spec (s : LimnSolver) (id : Nat) (L : List Constraint)
    (h : lookupA s.hidden_layouts id = some L) :
    (s.unhide_widget id).var_constraints = s.var_constraints ∧
    (s.unhide_widget id).constraint_vars = s.constraint_vars ∧
    (s.unhide_widget id).var_ids = s.var_ids ∧
    (s.unhide_widget id).edit_strengths = s.edit_strengths ∧
    (s.unhide_widget id).missing_widget_layout = s.missing_widget_layout ∧
    (s.unhide_widget id).debug_constraint_list = s.debug_constraint_list ∧
    (s.unhide_widget id).hidden_layouts = eraseA s.hidden_layouts id ∧
    (∀ d, d ∈ (s.unhide_widget id).solver.installed ↔
      d ∈ s.solver.installed ∨ d ∈ L) := by
  unfold LimnSolver.unhide_widget
  rw [h]
  dsimp only
  obtain ⟨i, hs⟩ := foldl_unhideStep_shape L { s with hidden_layouts := eraseA s.hidden_layouts id }
  rw [hs]
  refine ⟨rfl, rfl, rfl, rfl, rfl, rfl, rfl, ?_⟩
  intro d
  have := foldl_unhideStep_mem L { s with hidden_layouts := eraseA s.hidden_layouts id } d
  rw [hs] at this
  simpa using this

theorem lookupA_of_containsA_false {α β : Type} [DecidableEq α] (m : List (α × β)) (k : α)
    (h : containsA m k = false) : lookupA m k = none := by
  unfold containsA at h
  cases hl : lookupA m k
  · rfl
  · rw [hl] at h
    simp at h

/-! ## Claim C9: `remove_widget` does not clear the hidden-layout store -/

/-- C9: after hiding a widget and then removing it, the hidden-layout
store still holds the widget's entry, and a subsequent `unhide_widget`
installs every stored constraint back into the engine even though the
widget was removed. -/
theorem C9_remove_widget_keeps_hidden (s : LimnSolver) (id : Nat) (vars : LayoutVars) :
    ((s.hide_widget id vars).remove_widget vars).hidden_layouts =
      (s.hide_widget id vars).hidden_layouts ∧
    ∃ L, lookupA ((s.hide_widget id vars).remove_widget vars).hidden_layouts id = some L ∧
      ∀ c ∈ L,
        c ∈ (((s.hide_widget id vars).remove_widget vars).unhide_widget id).solver.installed := by
  have hrm := (remove_widget_untouched (s.hide_widget id vars) vars).2.1
  refine ⟨hrm, ?_⟩
  have hlk : ∃ L, lookupA (s.hide_widget id vars).hidden_layouts id = some L := by
    cases hc : containsA s.hidden_layouts id
    · have hspec := hide_widget_spec s id vars hc
      rw [hspec.2.2.2.2.2.2.1]
      exact ⟨_, lookupA_insertA_self _ _ _⟩
    · rw [hide_widget_noop s id vars hc]
      unfold containsA at hc
      exact Option.isSome_iff_exists.mp hc
  obtain ⟨L, hL⟩ := hlk
  have hL2 : lookupA ((s.hide_widget id vars).remove_widget vars).hidden_layouts id
      = some L := by
    rw [hrm]
    exact hL
  refine ⟨L, hL2, ?_⟩
  intro c hc
  exact ((unhide_widget_spec _ id L hL2).2.2.2.2.2.2.2 c).mpr (Or.inr hc)

/-! ## Claim C4: hide then unhide -/

/-- C4 (amended): for a non-hidden widget whose indexed constraints are all
installed, hide followed by unhide leaves the `var_constraints`,
`constraint_vars` and `var_ids` indices exactly as they were (hide alone
already does), restores the hidden-layout store, and restores the engine's
installed constraint set.  (Without the all-installed hypothesis, a
collected constraint that was uninstalled — e.g. shared with a hidden
sibling widget — is reinstalled by unhide, changing the installed set.) -/
theorem C4_hide_unhide_roundtrip (s : LimnSolver) (id : Nat) (vars : LayoutVars)
    (hnot : containsA s.hidden_layouts id = false)
    (hinst : ∀ c ∈ collectedConstraints s vars.array, c ∈ s.solver.installed) :
    (s.hide_widget id vars).var_constraints = s.var_constraints ∧
    (s.hide_widget id vars).constraint_vars = s.constraint_vars ∧
    (s.hide_widget id vars).var_ids = s.var_ids ∧
    ((s.hide_widget id vars).unhide_widget id).var_constraints = s.var_constraints ∧
    ((s.hide_widget id vars).unhide_widget id).constraint_vars = s.constraint_vars ∧
    ((s.hide_widget id vars).unhide_widget id).var_ids = s.var_ids ∧
    ((s.hide_widget id vars).unhide_widget id).hidden_layouts = s.hidden_layouts ∧
    (∀ d, d ∈ ((s.hide_widget id vars).unhide_widget id).solver.installed ↔
      d ∈ s.solver.installed) := by
  obtain ⟨h1, h2, h3, h4, h5, h6, h7, h8⟩ := hide_widget_spec s id vars hnot
  have hlk : lookupA (s.hide_widget id vars).hidden_layouts id =
      some (collectedConstraints s vars.array) := by
    rw [h7]
    exact lookupA_insertA_self _ _ _
  obtain ⟨u1, u2, u3, u4, u5, u6, u7, u8⟩ :=
    unhide_widget_spec (s.hide_widget id vars) id _ hlk
  refine ⟨h1, h2, h3, u1.trans h1, u2.trans h2, u3.trans h3, ?_, ?_⟩
  · rw [u7, h7, eraseA_insertA]
    exact eraseA_of_lookupA_none _ _ (lookupA_of_containsA_false _ _ hnot)
  · intro d
    rw [u8 d, h8 d]
    constructor
    · rintro (⟨hd, _⟩ | hdL)
      · exact hd
      · exact hinst d hdL
    · intro hd
      by_cases hdL : d ∈ collectedConstraints s vars.array
      · exact Or.inr hdL
      · exact Or.inl ⟨hd, hdL⟩

/-- A constraint spanning widget A (variables 0..3) and widget B
(variables 10..13). -/
def c4c : Constraint :=
  Constraint.mk 0 (Expression.mk [Term.mk 0 1, Term.mk 10 1] 0) RelOp.eq 1000000

def c4varsA : LayoutVars := LayoutVars.mk 0 1 4 5 2 3

def c4varsB : LayoutVars := LayoutVars.mk 10 11 14 15 12 13

/-- State after ingesting the shared constraint and hiding widget B: the
constraint is out of the engine but still indexed under widget A's
variable. -/
def c4s3 : LimnSolver :=
  (orSelf (LimnSolver.new.update_from_builder
    (LayoutBuilder.mk c4varsA [] [c4c]))).hide_widget 1 c4varsB

/-- C4 counterexample: widget A is not hidden in `c4s3` and the engine's
installed set is empty there, yet hide A followed by unhide A leaves the
shared constraint installed — the round-trip changed the installed set. -/
theorem C4_counterexample :
    containsA c4s3.hidden_layouts 0 = false ∧
    c4s3.solver.installed = [] ∧
    ((c4s3.hide_widget 0 c4varsA).unhide_widget 0).solver.installed = [c4c] :=
  ⟨rfl, rfl, rfl⟩

def c4wc : Constraint :=
  Constraint.mk 1 (Expression.mk [Term.mk 0 1] 0) RelOp.eq 1000000

def c4wvars : LayoutVars := LayoutVars.mk 0 1 4 5 2 3

def c4ws : LimnSolver :=
  orSelf (LimnSolver.new.update_from_builder (LayoutBuilder.mk c4wvars [] [c4wc]))

/-- C4 witness: the round-trip theorem applied to a freshly ingested
single-widget layout, whose collected constraints are all installed. -/
theorem C4_witness :
    (c4ws.hide_widget 0 c4wvars).var_constraints = c4ws.var_constraints ∧
    ((c4ws.hide_widget 0 c4wvars).unhide_widget 0).hidden_layouts = c4ws.hidden_layouts ∧
    (c4wc ∈ ((c4ws.hide_widget 0 c4wvars).unhide_widget 0).solver.installed ↔
      c4wc ∈ c4ws.solver.installed) :=
  ⟨(C4_hide_unhide_roundtrip c4ws 0 c4wvars (by decide) (by decide)).1,
   (C4_hide_unhide_roundtrip c4ws 0 c4wvars (by decide) (by decide)).2.2.2.2.2.2.1,
   (C4_hide_unhide_roundtrip c4ws 0 c4wvars (by decide) (by decide)).2.2.2.2.2.2.2 c4wc⟩

/-! ## Structural lemmas for `fetch_changes` -/

theorem fetchStep_state (p : List (Nat × Nat × Int) × LimnSolver) (q : Nat × Int) :
    ∃ mi, (LimnSolver.fetchStep p q).2 = { p.2 with missing_widget_layout := mi } := by
  unfold LimnSolver.fetchStep
  cases hl : lookupA p.2.var_ids q.1
  · exact ⟨_, rfl⟩
  · exact ⟨p.2.missing_widget_layout, rfl⟩

theorem foldl_fetchStep_state (feed : List (Nat × Int)) :
    ∀ p : List (Nat × Nat × Int) × LimnSolver,
      ∃ mi, (feed.foldl LimnSolver.fetchStep p).2 =
        { p.2 with missing_widget_layout := mi } := by
  induction feed with
  | nil =>
    intro p
    exact ⟨p.2.missing_widget_layout, rfl⟩
  | cons q rest ih =>
    intro p
    rw [List.foldl_cons]
    obtain ⟨m1, h1⟩ := fetchStep_state p q
    obtain ⟨m2, h2⟩ := ih (LimnSolver.fetchStep p q)
    refine ⟨m2, ?_⟩
    rw [h2, h1]

theorem foldl_fetchStep_acc (feed : List (Nat × Int)) :
    ∀ p : List (Nat × Nat × Int) × LimnSolver,
      (feed.foldl LimnSolver.fetchStep p).1 =
        p.1 ++ feed.filterMap (fun q => (lookupA p.2.var_ids q.1).map
          (fun i => (i, q.1, q.2))) := by
  induction feed with
  | nil =>
    intro p
    simp
  | cons q rest ih =>
    intro p
    rw [List.foldl_cons]
    obtain ⟨mi, hmi⟩ := fetchStep_state p q
    have hids : (LimnSolver.fetchStep p q).2.var_ids = p.2.var_ids := by rw [hmi]
    rw [ih (LimnSolver.fetchStep p q), hids]
    cases hl : lookupA p.2.var_ids q.1
    · simp [LimnSolver.fetchStep, hl, List.filterMap_cons]
    · simp [LimnSolver.fetchStep, hl, List.filterMap_cons]

theorem find?_append_match {α : Type} (l₁ l₂ : List α) (f : α → Bool) :
    (l₁ ++ l₂).find? f =
      (match l₁.find? f with
       | some a => some a
       | none => l₂.find? f) := by
  induction l₁ with
  | nil => rfl
  | cons a rest ih =>
    by_cases hf : f a = true
    · rw [List.cons_append, List.find?_cons_of_pos _ hf, List.find?_cons_of_pos _ hf]
    · rw [List.cons_append, List.find?_cons_of_neg _ hf, List.find?_cons_of_neg _ hf, ih]

theorem foldl_fetchStep_missing (feed : List (Nat × Int)) :
    ∀ (p : List (Nat × Nat × Int) × LimnSolver) (w : Nat),
      lookupA (feed.foldl LimnSolver.fetchStep p).2.missing_widget_layout w =
        if (lookupA p.2.var_ids w).isSome then lookupA p.2.missing_widget_layout w
        else
          (match feed.reverse.find? (fun q => q.1 == w) with
           | some q => some q.2
           | none => lookupA p.2.missing_widget_layout w) := by
  induction feed with
  | nil =>
    intro p w
    cases hw : (lookupA p.2.var_ids w).isSome <;> simp
  | cons q rest ih =>
    intro p w
    rw [List.foldl_cons, ih (LimnSolver.fetchStep p q) w]
    obtain ⟨mi, hmi⟩ := fetchStep_state p q
    have hids : (LimnSolver.fetchStep p q).2.var_ids = p.2.var_ids := by rw [hmi]
    rw [hids, List.reverse_cons, find?_append_match]
    by_cases hw : (lookupA p.2.var_ids w).isSome = true
    · rw [if_pos hw, if_pos hw]
      cases hl : lookupA p.2.var_ids q.1
      · have hne : w ≠ q.1 := by
          intro heq
          rw [← heq] at hl
          rw [hl] at hw
          simp at hw
        simp [LimnSolver.fetchStep, hl, lookupA_insertA_ne _ _ _ _ hne]
      · simp [LimnSolver.fetchStep, hl]
    · rw [if_neg hw, if_neg hw]
      have hwn : lookupA p.2.var_ids w = none := by
        cases hl2 : lookupA p.2.var_ids w
        · rfl
        · rw [hl2] at hw
          simp at hw
      cases hfind : rest.reverse.find? (fun q2 => q2.1 == w)
      · by_cases hqw : (q.1 == w) = true
        · have hq1 : q.1 = w := by simpa using hqw
          have hlq : lookupA p.2.var_ids q.1 = none := by rw [hq1, hwn]
          have h1 : [q].find? (fun q2 => q2.1 == w) = some q := by
            simp [List.find?, hqw]
          rw [h1]
          subst hq1
          simp [LimnSolver.fetchStep, hlq, lookupA_insertA_self]
        · have hq1 : q.1 ≠ w := by simpa using hqw
          have hqw2 : (q.1 == w) = false := by simpa using hqw
          have h1 : [q].find? (fun q2 => q2.1 == w) = none := by
            simp [List.find?, hqw2]
          rw [h1]
          cases hl : lookupA p.2.var_ids q.1
          · have hne : w ≠ q.1 := fun heq => hq1 heq.symm
            simp [LimnSolver.fetchStep, hl, lookupA_insertA_ne _ _ _ _ hne]
          · simp [LimnSolver.fetchStep, hl]
      · rfl

/-! ## Claim C7: change harvesting -/

/-- C7: `fetch_changes` drains the engine's feed; a pair whose variable is
mapped to a widget is emitted as a (widget, variable, value) triple in
feed order, while an unmapped pair is stored in the deferred-value cache,
overwriting earlier deferred values (the last value in the feed wins), and
nothing is emitted for it. -/
theorem C7_fetch_changes_spec (s : LimnSolver) :
    (s.fetch_changes).1 = s.solver.changes.filterMap
      (fun q => (lookupA s.var_ids q.1).map (fun i => (i, q.1, q.2))) ∧
    (s.fetch_changes).2.solver.changes = [] ∧
    (s.fetch_changes).2.var_ids = s.var_ids ∧
    (∀ w, lookupA (s.fetch_changes).2.missing_widget_layout w =
      if (lookupA s.var_ids w).isSome then lookupA s.missing_widget_layout w
      else
        (match s.solver.changes.reverse.find? (fun q => q.1 == w) with
         | some q => some q.2
         | none => lookupA s.missing_widget_layout w)) := by
  unfold LimnSolver.fetch_changes Engine.fetchChangesE
  dsimp only
  obtain ⟨mi, hms⟩ := foldl_fetchStep_state s.solver.changes
    ([], { s with solver := { s.solver with changes := [] } })
  refine ⟨?_, ?_, ?_, ?_⟩
  · rw [foldl_fetchStep_acc]
    simp
  · rw [hms]
  · rw [hms]
  · intro w
    rw [foldl_fetchStep_missing]

/-! ## Membership lemmas for `remove_widget` -/

theorem rcs_installed_mem (s : LimnSolver) (c d : Constraint) :
    d ∈ (s.removeConstraintStep c).solver.installed ↔
      d ∈ s.solver.installed ∧ d ≠ c := by
  unfold LimnSolver.removeConstraintStep
  by_cases hm : s.solver.hasConstraint c = true
  · rw [if_pos hm]
    dsimp only
    split
    · simp [Engine.removeConstraintOk, mem_setRemove]
    · simp [Engine.removeConstraintOk, mem_setRemove]
  · rw [if_neg hm]
    unfold Engine.hasConstraint at hm
    simp only [decide_eq_true_eq] at hm
    constructor
    · intro hd
      exact ⟨hd, fun hdc => hm (hdc ▸ hd)⟩
    · exact fun hd => hd.1

theorem setRemoveAt_lookup (m : List (Nat × List Constraint)) (v : Nat) (c : Constraint)
    (w : Nat) :
    lookupA (setRemoveAt m v c) w =
      if w = v then (lookupA m v).map (fun cs => setRemove cs c) else lookupA m w := by
  unfold setRemoveAt
  cases hl : lookupA m v
  · by_cases hw : w = v
    · subst hw
      simp [hl]
    · simp [hw]
  · case some cs =>
    by_cases hw : w = v
    · subst hw
      simp [hl, lookupA_insertA_self]
    · simp [hw, lookupA_insertA_ne _ _ _ _ hw]

theorem foldl_setRemoveAt_mem (c : Constraint) (vl : List Nat) :
    ∀ (m : List (Nat × List Constraint)) (w : Nat) (d : Constraint), d ≠ c →
      (d ∈ (lookupA (vl.foldl (fun m2 v => setRemoveAt m2 v c) m) w).getD [] ↔
        d ∈ (lookupA m w).getD []) := by
  induction vl with
  | nil =>
    intro m w d _
    rfl
  | cons v rest ih =>
    intro m w d hd
    rw [List.foldl_cons, ih (setRemoveAt m v c) w d hd, setRemoveAt_lookup]
    by_cases hw : w = v
    · rw [if_pos hw, hw]
      cases hl : lookupA m v
      · simp
      · simp [mem_setRemove, hd]
    · rw [if_neg hw]

theorem foldl_setRemoveAt_sub (c : Constraint) (vl : List Nat) :
    ∀ (m : List (Nat × List Constraint)) (w : Nat) (d : Constraint),
      d ∈ (lookupA (vl.foldl (fun m2 v => setRemoveAt m2 v c) m) w).getD [] →
        d ∈ (lookupA m w).getD [] := by
  induction vl with
  | nil =>
    intro m w d h
    exact h
  | cons v rest ih =>
    intro m w d h
    have h2 := ih (setRemoveAt m v c) w d h
    rw [setRemoveAt_lookup] at h2
    by_cases hw : w = v
    · rw [if_pos hw] at h2
      subst hw
      cases hl : lookupA m w with
      | none =>
        rw [hl] at h2
        simp at h2
      | some cs =>
        rw [hl] at h2
        have h3 : d ∈ setRemove cs c := by simpa using h2
        exact ((mem_setRemove cs c d).mp h3).1
    · rw [if_neg hw] at h2
      exact h2

theorem foldl_setRemoveAt_none (c : Constraint) (vl : List Nat) :
    ∀ (m : List (Nat × List Constraint)) (w : Nat),
      lookupA m w = none →
        lookupA (vl.foldl (fun m2 v => setRemoveAt m2 v c) m) w = none := by
  induction vl with
  | nil =>
    intro m w h
    exact h
  | cons v rest ih =>
    intro m w h
    rw [List.foldl_cons]
    refine ih _ w ?_
    rw [setRemoveAt_lookup]
    by_cases hw : w = v
    · rw [if_pos hw, ← hw, h]
      rfl
    · rw [if_neg hw]
      exact h

theorem rcs_varC_mem (s : LimnSolver) (c d : Constraint) (hd : d ≠ c) (w : Nat) :
    d ∈ varConstraintsAt (s.removeConstraintStep c) w ↔ d ∈ varConstraintsAt s w := by
  unfold LimnSolver.removeConstraintStep varConstraintsAt
  by_cases hm : s.solver.hasConstraint c = true
  · rw [if_pos hm]
    dsimp only
    split
    · exact foldl_setRemoveAt_mem c _ s.var_constraints w d hd
    · exact Iff.rfl
  · rw [if_neg hm]

theorem rcs_varC_sub (s : LimnSolver) (c : Constraint) (w : Nat) (d : Constraint) :
    d ∈ varConstraintsAt (s.removeConstraintStep c) w → d ∈ varConstraintsAt s w := by
  unfold LimnSolver.removeConstraintStep varConstraintsAt
  by_cases hm : s.solver.hasConstraint c = true
  · rw [if_pos hm]
    dsimp only
    split
    · exact foldl_setRemoveAt_sub c _ s.var_constraints w d
    · exact id
  · rw [if_neg hm]
    exact id

theorem rcs_varC_none (s : LimnSolver) (c : Constraint) (w : Nat)
    (h : lookupA s.var_constraints w = none) :
    lookupA (s.removeConstraintStep c).var_constraints w = none := by
  unfold LimnSolver.removeConstraintStep
  by_cases hm : s.solver.hasConstraint c = true
  · rw [if_pos hm]
    dsimp only
    split
    · exact foldl_setRemoveAt_none c _ s.var_constraints w h
    · exact h
  · rw [if_neg hm]
    exact h

theorem foldl_rcs_installed_sub (cs : List Constraint) :
    ∀ (s : LimnSolver) (d : Constraint),
      d ∈ (cs.foldl LimnSolver.removeConstraintStep s).solver.installed →
        d ∈ s.solver.installed := by
  induction cs with
  | nil =>
    intro s d h
    exact h
  | cons c rest ih =>
    intro s d h
    exact ((rcs_installed_mem s c d).mp (ih (s.removeConstraintStep c) d h)).1

theorem foldl_rcs_clears (cs : List Constraint) :
    ∀ (s : LimnSolver) (v : Nat),
      (∀ d ∈ s.solver.installed, v ∈ constraintVariables d → d ∈ cs) →
      ∀ d ∈ (cs.foldl LimnSolver.removeConstraintStep s).solver.installed,
        v ∉ constraintVariables d := by
  induction cs with
  | nil =>
    intro s v hall d hd hv
    exact List.not_mem_nil d (hall d hd hv)
  | cons c rest ih =>
    intro s v hall
    have hall2 : ∀ d ∈ (s.removeConstraintStep c).solver.installed,
        v ∈ constraintVariables d → d ∈ rest := by
      intro d hd hv
      obtain ⟨hds, hdc⟩ := (rcs_installed_mem s c d).mp hd
      cases List.mem_cons.mp (hall d hds hv) with
      | inl h => exact absurd h hdc
      | inr h => exact h
    exact ih (s.removeConstraintStep c) v hall2

theorem foldl_rcs_varC_sub (cs : List Constraint) :
    ∀ (s : LimnSolver) (w : Nat) (d : Constraint),
      d ∈ varConstraintsAt (cs.foldl LimnSolver.removeConstraintStep s) w →
        d ∈ varConstraintsAt s w := by
  induction cs with
  | nil =>
    intro s w d h
    exact h
  | cons c rest ih =>
    intro s w d h
    exact rcs_varC_sub s c w d (ih (s.removeConstraintStep c) w d h)

theorem foldl_rcs_varC_none (cs : List Constraint) :
    ∀ (s : LimnSolver) (w : Nat), lookupA s.var_constraints w = none →
      lookupA (cs.foldl LimnSolver.removeConstraintStep s).var_constraints w = none := by
  induction cs with
  | nil =>
    intro s w h
    exact h
  | cons c rest ih =>
    intro s w h
    exact ih (s.removeConstraintStep c) w (rcs_varC_none s c w h)

theorem foldl_rcs_keep (cs : List Constraint) :
    ∀ (s : LimnSolver) (d : Constraint),
      d ∈ (cs.foldl LimnSolver.removeConstraintStep s).solver.installed →
      ∀ w, d ∈ varConstraintsAt s w →
        d ∈ varConstraintsAt (cs.foldl LimnSolver.removeConstraintStep s) w := by
  induction cs with
  | nil =>
    intro s d _ w h
    exact h
  | cons c rest ih =>
    intro s d hd w h
    have hds := foldl_rcs_installed_sub rest (s.removeConstraintStep c) d hd
    have hdc : d ≠ c := ((rcs_installed_mem s c d).mp hds).2
    exact ih (s.removeConstraintStep c) d hd w ((rcs_varC_mem s c d hdc w).mpr h)

theorem removeVar_installed_sub (s : LimnSolver) (v : Nat) (d : Constraint) :
    d ∈ (s.removeVar v).solver.installed → d ∈ s.solver.installed := by
  unfold LimnSolver.removeVar
  cases hl : lookupA s.var_constraints v
  · dsimp only
    exact id
  · case some cset =>
    dsimp only
    intro h
    exact foldl_rcs_installed_sub cset
      { s with var_constraints := eraseA s.var_constraints v } d h

theorem removeVar_clears (s : LimnSolver) (v : Nat) (hInv : InstalledIndexed s) :
    ∀ d ∈ (s.removeVar v).solver.installed, v ∉ constraintVariables d := by
  unfold LimnSolver.removeVar
  cases hl : lookupA s.var_constraints v
  · dsimp only
    intro d hd hv
    have h1 := hInv d hd v hv
    unfold varConstraintsAt at h1
    rw [hl] at h1
    simp at h1
  · case some cset =>
    dsimp only
    intro d hd hv
    refine foldl_rcs_clears cset { s with var_constraints := eraseA s.var_constraints v }
      v ?_ d hd hv
    intro d2 hd2 hv2
    have h1 := hInv d2 hd2 v hv2
    unfold varConstraintsAt at h1
    rw [hl] at h1
    exact h1

theorem removeVar_varC_none_self (s : LimnSolver) (v : Nat) :
    lookupA (s.removeVar v).var_constraints v = none := by
  unfold LimnSolver.removeVar
  cases hl : lookupA s.var_constraints v
  · dsimp only
    exact hl
  · case some cset =>
    dsimp only
    exact foldl_rcs_varC_none cset _ v (lookupA_eraseA_self _ _)

theorem removeVar_varC_none_mono (s : LimnSolver) (v w : Nat)
    (h : lookupA s.var_constraints w = none) :
    lookupA (s.removeVar v).var_constraints w = none := by
  unfold LimnSolver.removeVar
  cases hl : lookupA s.var_constraints v
  · dsimp only
    exact h
  · case some cset =>
    dsimp only
    exact foldl_rcs_varC_none cset _ w (lookupA_eraseA_none _ _ _ h)

theorem removeVar_varC_sub (s : LimnSolver) (v w : Nat) (d : Constraint) :
    d ∈ varConstraintsAt (s.removeVar v) w → d ∈ varConstraintsAt s w := by
  unfold LimnSolver.removeVar
  cases hl : lookupA s.var_constraints v
  · dsimp only
    exact id
  · case some cset =>
    dsimp only
    intro h
    have h2 := foldl_rcs_varC_sub cset
      { s with var_constraints := eraseA s.var_constraints v } w d h
    unfold varConstraintsAt at h2 ⊢
    dsimp only at h2
    by_cases hw : w = v
    · subst hw
      rw [lookupA_eraseA_self] at h2
      simp at h2
    · rw [lookupA_eraseA_ne _ _ _ hw] at h2
      exact h2

theorem removeVar_varIds_none_self (s : LimnSolver) (v : Nat) :
    lookupA (s.removeVar v).var_ids v = none := by
  unfold LimnSolver.removeVar
  cases hl : lookupA s.var_constraints v
  · dsimp only
    exact lookupA_eraseA_self _ _
  · case some cset =>
    dsimp only
    exact lookupA_eraseA_self _ _

theorem removeVar_varIds_none_mono (s : LimnSolver) (v w : Nat)
    (h : lookupA s.var_ids w = none) :
    lookupA (s.removeVar v).var_ids w = none := by
  unfold LimnSolver.removeVar
  cases hl : lookupA s.var_constraints v
  · dsimp only
    exact lookupA_eraseA_none _ _ _ h
  · case some cset =>
    dsimp only
    obtain ⟨vc, i, dl, hf⟩ :=
      foldl_removeConstraintStep_shape cset { s with var_constraints := eraseA s.var_constraints v }
    rw [hf]
    exact lookupA_eraseA_none _ _ _ h

theorem removeVar_inv (s : LimnSolver) (v : Nat) (hInv : InstalledIndexed s) :
    InstalledIndexed (s.removeVar v) := by
  intro d hd w hw
  have hclear := removeVar_clears s v hInv d hd
  have hds : d ∈ s.solver.installed := removeVar_installed_sub s v d hd
  have hwv : w ≠ v := fun he => hclear (he ▸ hw)
  have h1 : d ∈ varConstraintsAt s w := hInv d hds w hw
  revert hd
  unfold LimnSolver.removeVar
  cases hl : lookupA s.var_constraints v
  · dsimp only
    intro _
    exact h1
  · case some cset =>
    dsimp only
    intro hd2
    have hbase : d ∈ varConstraintsAt
        { s with var_constraints := eraseA s.var_constraints v } w := by
      unfold varConstraintsAt
      dsimp only
      rw [lookupA_eraseA_ne _ _ _ hwv]
      exact h1
    exact foldl_rcs_keep cset _ d hd2 w hbase

theorem foldl_removeVar_installed_sub (l : List Nat) :
    ∀ (s : LimnSolver) (d : Constraint),
      d ∈ (l.foldl LimnSolver.removeVar s).solver.installed → d ∈ s.solver.installed := by
  induction l with
  | nil =>
    intro s d h
    exact h
  | cons v rest ih =>
    intro s d h
    exact removeVar_installed_sub s v d (ih (s.removeVar v) d h)

theorem foldl_removeVar_inv (l : List Nat) :
    ∀ s : LimnSolver, InstalledIndexed s → InstalledIndexed (l.foldl LimnSolver.removeVar s) := by
  induction l with
  | nil =>
    intro s h
    exact h
  | cons v rest ih =>
    intro s h
    exact ih (s.removeVar v) (removeVar_inv s v h)

theorem foldl_removeVar_varC_none_mono (l : List Nat) :
    ∀ (s : LimnSolver) (w : Nat), lookupA s.var_constraints w = none →
      lookupA (l.foldl LimnSolver.removeVar s).var_constraints w = none := by
  induction l with
  | nil =>
    intro s w h
    exact h
  | cons v rest ih =>
    intro s w h
    exact ih (s.removeVar v) w (removeVar_varC_none_mono s v w h)

theorem foldl_removeVar_varIds_none_mono (l : List Nat) :
    ∀ (s : LimnSolver) (w : Nat), lookupA s.var_ids w = none →
      lookupA (l.foldl LimnSolver.removeVar s).var_ids w = none := by
  induction l with
  | nil =>
    intro s w h
    exact h
  | cons v rest ih =>
    intro s w h
    exact ih (s.removeVar v) w (removeVar_varIds_none_mono s v w h)

theorem foldl_removeVar_varC_sub (l : List Nat) :
    ∀ (s : LimnSolver) (w : Nat) (d : Constraint),
      d ∈ varConstraintsAt (l.foldl LimnSolver.removeVar s) w →
        d ∈ varConstraintsAt s w := by
  induction l with
  | nil =>
    intro s w d h
    exact h
  | cons v rest ih =>
    intro s w d h
    exact removeVar_varC_sub s v w d (ih (s.removeVar v) w d h)

theorem foldl_removeVar_clears (l : List Nat) :
    ∀ s : LimnSolver, InstalledIndexed s →
      ∀ v ∈ l, ∀ d ∈ (l.foldl LimnSolver.removeVar s).solver.installed,
        v ∉ constraintVariables d := by
  induction l with
  | nil =>
    intro s _ v hv
    exact absurd hv (List.not_mem_nil v)
  | cons v0 rest ih =>
    intro s hInv v hv d hd hvc
    rcases List.mem_cons.mp hv with rfl | hvr
    · have hd2 : d ∈ (s.removeVar v).solver.installed :=
        foldl_removeVar_installed_sub rest (s.removeVar v) d hd
      exact removeVar_clears s v hInv d hd2 hvc
    · exact ih (s.removeVar v0) (removeVar_inv s v0 hInv) v hvr d hd hvc

theorem foldl_removeVar_varC_none (l : List Nat) :
    ∀ s : LimnSolver, ∀ v ∈ l,
      lookupA (l.foldl LimnSolver.removeVar s).var_constraints v = none := by
  induction l with
  | nil =>
    intro s v hv
    exact absurd hv (List.not_mem_nil v)
  | cons v0 rest ih =>
    intro s v hv
    rcases List.mem_cons.mp hv with rfl | hvr
    · exact foldl_removeVar_varC_none_mono rest (s.removeVar v) v
        (removeVar_varC_none_self s v)
    · exact ih (s.removeVar v0) v hvr

theorem foldl_removeVar_varIds_none (l : List Nat) :
    ∀ s : LimnSolver, ∀ v ∈ l,
      lookupA (l.foldl LimnSolver.removeVar s).var_ids v = none := by
  induction l with
  | nil =>
    intro s v hv
    exact absurd hv (List.not_mem_nil v)
  | cons v0 rest ih =>
    intro s v hv
    rcases List.mem_cons.mp hv with rfl | hvr
    · exact foldl_removeVar_varIds_none_mono rest (s.removeVar v) v
        (removeVar_varIds_none_self s v)
    · exact ih (s.removeVar v0) v hvr

instance (s : LimnSolver) : Decidable (InstalledIndexed s) := by
  unfold InstalledIndexed
  infer_instance

/-! ## Claim C1: what `remove_widget` tears down -/

/-- C1 (amended): when every installed constraint is indexed under each
variable it references (which ingestion through `update_from_builder`
establishes), `remove_widget` leaves no constraint referencing any of the
widget's four variables installed, and drops the four variables from the
`var_ids` and `var_constraints` maps — but the `constraint_vars` map is
left entirely untouched, so it keeps referencing the widget's variables
for the constraints just removed, and the hidden-layout store is also
untouched. -/
theorem C1_remove_widget_teardown (s : LimnSolver) (vars : LayoutVars)
    (hInv : InstalledIndexed s) :
    (∀ v ∈ vars.array, ∀ d ∈ (s.remove_widget vars).solver.installed,
      v ∉ constraintVariables d) ∧
    (∀ v ∈ vars.array, lookupA (s.remove_widget vars).var_constraints v = none) ∧
    (∀ v ∈ vars.array, lookupA (s.remove_widget vars).var_ids v = none) ∧
    (s.remove_widget vars).constraint_vars = s.constraint_vars ∧
    (s.remove_widget vars).hidden_layouts = s.hidden_layouts :=
  ⟨foldl_removeVar_clears vars.array s hInv,
   foldl_removeVar_varC_none vars.array s,
   foldl_removeVar_varIds_none vars.array s,
   (remove_widget_untouched s vars).1,
   (remove_widget_untouched s vars).2.1⟩

def c1c : Constraint :=
  Constraint.mk 2 (Expression.mk [Term.mk 0 1] 0) RelOp.eq 1000000

def c1vars : LayoutVars := LayoutVars.mk 0 1 4 5 2 3

/-- State with the constraint `c1c` over the widget's left variable
ingested through `update_from_builder`. -/
def c1s1 : LimnSolver :=
  orSelf (LimnSolver.new.update_from_builder (LayoutBuilder.mk c1vars [] [c1c]))

/-- C1 counterexample: after removing the widget, the constraint-to-
variables index still maps the removed constraint to the widget's left
variable — an index of the wrapper still references the widget's
variables. -/
theorem C1_counterexample :
    isOkE (LimnSolver.new.update_from_builder (LayoutBuilder.mk c1vars [] [c1c])) = true ∧
    lookupA (c1s1.remove_widget c1vars).constraint_vars c1c = some [0] ∧
    c1vars.left = 0 :=
  ⟨rfl, rfl, rfl⟩

/-- C1 witness: the teardown theorem applied at the concrete ingested
state. -/
theorem C1_witness :
    lookupA (c1s1.remove_widget c1vars).var_constraints 0 = none ∧
    lookupA (c1s1.remove_widget c1vars).var_ids 0 = none ∧
    (c1s1.remove_widget c1vars).constraint_vars = c1s1.constraint_vars ∧
    (c1c ∈ (c1s1.remove_widget c1vars).solver.installed → False) :=
  ⟨(C1_remove_widget_teardown c1s1 c1vars (by decide)).2.1 0 (by decide),
   (C1_remove_widget_teardown c1s1 c1vars (by decide)).2.2.1 0 (by decide),
   (C1_remove_widget_teardown c1s1 c1vars (by decide)).2.2.2.1,
   fun hmem =>
     (C1_remove_widget_teardown c1s1 c1vars (by decide)).1 0 (by decide) c1c hmem
       (by decide)⟩

/-! ## Consistency of the two constraint indices -/

theorem consistent_congr (s t : LimnSolver) (h1 : t.var_constraints = s.var_constraints)
    (h2 : t.constraint_vars = s.constraint_vars) (h : Consistent s) : Consistent t := by
  intro c v
  unfold varConstraintsAt constraintVarsAt
  rw [h1, h2]
  exact h c v

theorem add_constraint_maps (s : LimnSolver) (c : Constraint) :
    (orSelf (s.add_constraint c)).var_constraints = s.var_constraints ∧
    (orSelf (s.add_constraint c)).constraint_vars = s.constraint_vars := by
  unfold LimnSolver.add_constraint Engine.addConstraintE
  by_cases hm : c ∈ s.solver.installed
  · simp [hm, orSelf]
  · simp [hm, orSelf]

theorem indexFold_mem_self (c : Constraint) (tv : List Nat) :
    ∀ (m : List (Nat × List Constraint)) (w : Nat),
      c ∈ (lookupA (tv.foldl
          (fun m2 v => insertA m2 v (setInsert ((lookupA m2 v).getD []) c)) m) w).getD [] ↔
        c ∈ (lookupA m w).getD [] ∨ w ∈ tv := by
  induction tv with
  | nil =>
    intro m w
    simp
  | cons v rest ih =>
    intro m w
    rw [List.foldl_cons, ih]
    by_cases hw : w = v
    · subst hw
      rw [lookupA_insertA_self]
      simp [mem_setInsert]
    · rw [lookupA_insertA_ne _ _ _ _ hw]
      simp only [List.mem_cons, hw, false_or]

theorem indexFold_mem_other (c d : Constraint) (hd : d ≠ c) (tv : List Nat) :
    ∀ (m : List (Nat × List Constraint)) (w : Nat),
      d ∈ (lookupA (tv.foldl
          (fun m2 v => insertA m2 v (setInsert ((lookupA m2 v).getD []) c)) m) w).getD [] ↔
        d ∈ (lookupA m w).getD [] := by
  induction tv with
  | nil =>
    intro m w
    exact Iff.rfl
  | cons v rest ih =>
    intro m w
    rw [List.foldl_cons, ih]
    by_cases hw : w = v
    · subst hw
      rw [lookupA_insertA_self]
      simp [mem_setInsert, hd]
    · rw [lookupA_insertA_ne _ _ _ _ hw]

theorem consistent_indexConstraint (s : LimnSolver) (c : Constraint) (h : Consistent s) :
    Consistent (s.indexConstraint c) := by
  intro d w
  unfold LimnSolver.indexConstraint varConstraintsAt constraintVarsAt
  dsimp only
  by_cases hdc : d = c
  · subst hdc
    rw [lookupA_insertA_self]
    rw [indexFold_mem_self d (constraintVariables d) s.var_constraints w]
    have hc := h d w
    unfold varConstraintsAt constraintVarsAt at hc
    simp only [Option.getD_some]
    rw [List.mem_append]
    exact or_congr hc Iff.rfl
  · rw [lookupA_insertA_ne _ _ _ _ hdc]
    rw [indexFold_mem_other c d hdc (constraintVariables c) s.var_constraints w]
    exact h d w

theorem consistent_processConstraints (l : List Constraint) :
    ∀ s : LimnSolver, Consistent s → Consistent (orSelf (s.processConstraints l)) := by
  induction l with
  | nil =>
    intro s h
    exact h
  | cons c rest ih =>
    intro s h
    unfold LimnSolver.processConstraints
    cases hres : s.add_constraint c with
    | error s1 =>
      dsimp only
      have hm := add_constraint_maps s c
      rw [hres] at hm
      simp only [orSelf] at hm ⊢
      exact consistent_congr s s1 hm.1 hm.2 h
    | ok s1 =>
      dsimp only
      have hm := add_constraint_maps s c
      rw [hres] at hm
      simp only [orSelf] at hm
      exact ih (s1.indexConstraint c)
        (consistent_indexConstraint s1 c (consistent_congr s s1 hm.1 hm.2 h))

theorem consistent_update (s : LimnSolver) (b : LayoutBuilder) (h : Consistent s) :
    Consistent (orSelf (s.update_from_builder b)) := by
  unfold LimnSolver.update_from_builder
  cases hres : s.processEditVars b.edit_vars with
  | error s1 =>
    dsimp only
    have hp := processEditVars_sameButEdit b.edit_vars s
    rw [hres] at hp
    simp only [orSelf] at hp ⊢
    exact consistent_congr s s1 hp.1 hp.2.1 h
  | ok s1 =>
    dsimp only
    have hp := processEditVars_sameButEdit b.edit_vars s
    rw [hres] at hp
    simp only [orSelf] at hp
    exact consistent_processConstraints b.constraints s1 (consistent_congr s s1 hp.1 hp.2.1 h)

theorem fetch_changes_maps (s : LimnSolver) :
    (s.fetch_changes).2.var_constraints = s.var_constraints ∧
    (s.fetch_changes).2.constraint_vars = s.constraint_vars := by
  unfold LimnSolver.fetch_changes Engine.fetchChangesE
  dsimp only
  obtain ⟨mi, hms⟩ := foldl_fetchStep_state s.solver.changes
    ([], { s with solver := { s.solver with changes := [] } })
  rw [hms]
  exact ⟨rfl, rfl⟩

theorem remove_widget_forward (s : LimnSolver) (vars : LayoutVars) (h : Consistent s) :
    ∀ (c : Constraint) (v : Nat), c ∈ varConstraintsAt (s.remove_widget vars) v →
      v ∈ constraintVarsAt (s.remove_widget vars) c := by
  intro c v hc
  have hsub : c ∈ varConstraintsAt s v := foldl_removeVar_varC_sub vars.array s v c hc
  have hfwd : v ∈ constraintVarsAt s c := (h c v).mp hsub
  unfold constraintVarsAt
  rw [(remove_widget_untouched s vars).1]
  exact hfwd

/-! ## Claim C3: mutual consistency of the two constraint indices -/

/-- C3 (amended): the mutual-consistency invariant is preserved by
`add_widget`, `update_from_builder` (also on the abort path),
`hide_widget`, `unhide_widget`, `edit_variable` and `fetch_changes`; but
`remove_widget` preserves only the direction "c in var_constraints[v]
implies v in constraint_vars[c]": it removes constraints from
`var_constraints` without ever updating `constraint_vars`, so a removed
constraint keeps its entry there and the reverse direction fails. -/
theorem C3_index_consistency (s : LimnSolver) (h : Consistent s) :
    (∀ (id : Nat) (lay : LayoutBuilder) (b : Rect),
      Consistent (unpackW (s.add_widget id lay b)).1) ∧
    (∀ lay : LayoutBuilder, Consistent (orSelf (s.update_from_builder lay))) ∧
    (∀ (id : Nat) (vars : LayoutVars), Consistent (s.hide_widget id vars)) ∧
    (∀ id : Nat, Consistent (s.unhide_widget id)) ∧
    (∀ (v : Nat) (val : Int), Consistent (s.edit_variable v val)) ∧
    Consistent (s.fetch_changes).2 ∧
    (∀ (vars : LayoutVars) (c : Constraint) (v : Nat),
      c ∈ varConstraintsAt (s.remove_widget vars) v →
        v ∈ constraintVarsAt (s.remove_widget vars) c) := by
  refine ⟨?_, fun lay => consistent_update s lay h, ?_, ?_, ?_,
    consistent_congr s _ (fetch_changes_maps s).1 (fetch_changes_maps s).2 h,
    fun vars => remove_widget_forward s vars h⟩
  · intro id lay b
    simp only [LimnSolver.add_widget, LimnSolver.checkExisting]
    rw [unpackW_mapState]
    dsimp only
    exact consistent_update _ lay (consistent_congr s _ rfl rfl h)
  · intro id vars
    cases hc : containsA s.hidden_layouts id
    · have hs := hide_widget_spec s id vars hc
      exact consistent_congr s _ hs.1 hs.2.1 h
    · rw [hide_widget_noop s id vars hc]
      exact h
  · intro id
    cases hl : lookupA s.hidden_layouts id
    · rw [unhide_widget_none s id hl]
      exact h
    · case some L =>
      have hs := unhide_widget_spec s id L hl
      exact consistent_congr s _ hs.1 hs.2.1 h
  · intro v val
    cases hh : s.solver.hasEditVariable v
    · refine consistent_congr s _ ?_ ?_ h <;>
        simp [LimnSolver.edit_variable, hh]
    · refine consistent_congr s _ ?_ ?_ h <;>
        simp [LimnSolver.edit_variable, hh]

def c3c : Constraint :=
  Constraint.mk 3 (Expression.mk [Term.mk 0 1] 0) RelOp.eq 1000000

def c3vars : LayoutVars := LayoutVars.mk 0 1 4 5 2 3

/-- The state reached by ingesting the single constraint `c3c` over
variable 0 into a fresh solver. -/
def c3s1 : LimnSolver :=
  { solver := { installed := [c3c], edit_vars := [], suggestions := [], changes := [] }
    var_constraints := [(0, [c3c])]
    constraint_vars := [(c3c, [0])]
    var_ids := []
    hidden_layouts := []
    edit_strengths := []
    missing_widget_layout := []
    debug_constraint_list := [c3c] }

theorem c3s1_consistent : Consistent c3s1 := by
  intro d v
  unfold varConstraintsAt constraintVarsAt c3s1
  dsimp only
  by_cases hv : (0 : Nat) = v
  · rw [← hv]
    by_cases hd : c3c = d
    · rw [← hd]
      simp [lookupA]
    · have hd2 : ¬ d = c3c := fun he => hd he.symm
      simp [lookupA, hd, hd2]
  · by_cases hd : c3c = d
    · rw [← hd]
      have hv2 : ¬ v = 0 := fun he => hv he.symm
      simp [lookupA, hv, hv2]
    · simp [lookupA, hv, hd]

/-- C3 counterexample: the consistency invariant holds in the reachable
state `c3s1` but is broken by `remove_widget`, which leaves variable 0 in
`constraint_vars[c3c]` while `c3c` is gone from `var_constraints[0]`. -/
theorem C3_counterexample :
    LimnSolver.new.update_from_builder (LayoutBuilder.mk c3vars [] [c3c]) =
      Except.ok c3s1 ∧
    Consistent c3s1 ∧
    ¬ Consistent (c3s1.remove_widget c3vars) := by
  refine ⟨rfl, c3s1_consistent, ?_⟩
  intro h
  have h2 := (h c3c 0).mpr (by decide)
  revert h2
  decide

/-- C3 witness: consistency preservation applied at the concrete ingested
state `c3s1` for a hide and for a change harvest. -/
theorem C3_witness :
    Consistent (c3s1.hide_widget 1 c3vars) ∧ Consistent (c3s1.fetch_changes).2 :=
  ⟨(C3_index_consistency c3s1 c3s1_consistent).2.2.1 1 c3vars,
   (C3_index_consistency c3s1 c3s1_consistent).2.2.2.2.2.1⟩
